import Mathlib

/-
  Verification of the BLE collar coordinator / forwarder system.

  The definitions below are a shallow embedding of the JavaScript sources:
  src/lib/node-pool.js, src/lib/node-protocol.js, src/server.js,
  src/forwarder.js and the BLE constants module (src/unnamed/part_004) /
  ble-device module (src/unnamed/part_002).

  Modelling conventions:
  - JavaScript Maps are insertion-ordered association lists
    (Map.set updates in place or appends; Map.delete removes the entry;
    iteration follows insertion order).
  - Timers are explicit: arming/cancelling a timer is an observable
    output, and a timer firing is an explicit event of the step
    function (the single-threaded event loop is a fold over events).
  - JS numbers appearing as RSSI values are modelled as `Option Int`
    (`none` models a field that is not a usable number: absent or
    non-numeric; NaN and infinities never win the strict-greater
    comparison in the election and so behave like `none` there).
  - Command values are modelled as `Option ℚ` (`none` = absent or
    non-numeric, which JavaScript turns into NaN and then into 0 via
    the `|| 0` fallback).
-/

/-! ## Insertion-ordered association lists (JavaScript Map) -/

def alistGet {V : Type} : List (String × V) → String → Option V
  | [], _ => none
  | (k, v) :: rest, key => if k = key then some v else alistGet rest key

def alistSet {V : Type} : List (String × V) → String → V → List (String × V)
  | [], key, value => [(key, value)]
  | (k, v) :: rest, key, value =>
      if k = key then (key, value) :: rest else (k, v) :: alistSet rest key value

def alistDelete {V : Type} : List (String × V) → String → List (String × V)
  | [], _ => []
  | (k, v) :: rest, key => if k = key then rest else (k, v) :: alistDelete rest key

def alistHas {V : Type} (m : List (String × V)) (k : String) : Bool :=
  (alistGet m k).isSome

def alistKeysNodup {V : Type} (m : List (String × V)) : Prop :=
  (m.map Prod.fst).Nodup

theorem alistSet_cons_self {V : Type} (k : String) (v0 v : V) (rest : List (String × V)) :
    alistSet ((k, v0) :: rest) k v = (k, v) :: rest := by
  simp [alistSet]

theorem alistSet_cons_ne {V : Type} {k0 k : String} (h : ¬k0 = k) (v0 v : V)
    (rest : List (String × V)) :
    alistSet ((k0, v0) :: rest) k v = (k0, v0) :: alistSet rest k v := by
  simp [alistSet, h]

theorem alistDelete_cons_self {V : Type} (k : String) (v0 : V) (rest : List (String × V)) :
    alistDelete ((k, v0) :: rest) k = rest := by
  simp [alistDelete]

theorem alistDelete_cons_ne {V : Type} {k0 k : String} (h : ¬k0 = k) (v0 : V)
    (rest : List (String × V)) :
    alistDelete ((k0, v0) :: rest) k = (k0, v0) :: alistDelete rest k := by
  simp [alistDelete, h]

theorem alistGet_cons {V : Type} (k0 k : String) (v0 : V) (rest : List (String × V)) :
    alistGet ((k0, v0) :: rest) k = if k0 = k then some v0 else alistGet rest k := rfl

theorem alistGet_set_self {V : Type} (m : List (String × V)) (k : String) (v : V) :
    alistGet (alistSet m k v) k = some v := by
  induction m with
  | nil => simp [alistSet, alistGet]
  | cons p rest ih =>
    obtain ⟨k0, v0⟩ := p
    by_cases h : k0 = k
    · subst h
      rw [alistSet_cons_self, alistGet_cons, if_pos rfl]
    · rw [alistSet_cons_ne h, alistGet_cons, if_neg h, ih]

theorem alistGet_set_ne {V : Type} (m : List (String × V)) (k : String) (v : V)
    (k' : String) (h : ¬k' = k) :
    alistGet (alistSet m k v) k' = alistGet m k' := by
  have hk : ¬k = k' := fun hh => h hh.symm
  induction m with
  | nil => simp [alistSet, alistGet, hk]
  | cons p rest ih =>
    obtain ⟨k0, v0⟩ := p
    by_cases h0 : k0 = k
    · subst h0
      rw [alistSet_cons_self, alistGet_cons, alistGet_cons, if_neg hk, if_neg hk]
    · rw [alistSet_cons_ne h0, alistGet_cons, alistGet_cons, ih]

theorem alistGet_eq_none_of_not_mem_keys {V : Type} (m : List (String × V)) (k : String)
    (h : k ∉ m.map Prod.fst) : alistGet m k = none := by
  induction m with
  | nil => rfl
  | cons p rest ih =>
    obtain ⟨k0, v0⟩ := p
    simp only [List.map_cons, List.mem_cons, not_or] at h
    have hk0 : ¬k0 = k := fun hh => h.1 hh.symm
    rw [alistGet_cons, if_neg hk0, ih h.2]

theorem alistGet_delete_self {V : Type} (m : List (String × V)) (k : String)
    (h : alistKeysNodup m) : alistGet (alistDelete m k) k = none := by
  induction m with
  | nil => rfl
  | cons p rest ih =>
    obtain ⟨k0, v0⟩ := p
    unfold alistKeysNodup at h
    simp only [List.map_cons, List.nodup_cons] at h
    by_cases h0 : k0 = k
    · subst h0
      rw [alistDelete_cons_self]
      exact alistGet_eq_none_of_not_mem_keys rest k0 h.1
    · rw [alistDelete_cons_ne h0, alistGet_cons, if_neg h0, ih h.2]

theorem alistGet_delete_ne {V : Type} (m : List (String × V)) (k : String)
    (k' : String) (h : ¬k' = k) :
    alistGet (alistDelete m k) k' = alistGet m k' := by
  have hk : ¬k = k' := fun hh => h hh.symm
  induction m with
  | nil => rfl
  | cons p rest ih =>
    obtain ⟨k0, v0⟩ := p
    by_cases h0 : k0 = k
    · subst h0
      rw [alistDelete_cons_self, alistGet_cons, if_neg hk]
    · rw [alistDelete_cons_ne h0, alistGet_cons, alistGet_cons, ih]

theorem mem_keys_of_mem_keys_set {V : Type} (m : List (String × V)) (k : String) (v : V)
    (a : String) (h : a ∈ (alistSet m k v).map Prod.fst) :
    a = k ∨ a ∈ m.map Prod.fst := by
  induction m with
  | nil =>
    simp only [alistSet, List.map_cons, List.map_nil, List.mem_cons,
      List.not_mem_nil, or_false] at h
    exact Or.inl h
  | cons p rest ih =>
    obtain ⟨k0, v0⟩ := p
    by_cases h0 : k0 = k
    · subst h0
      rw [alistSet_cons_self] at h
      simp only [List.map_cons, List.mem_cons] at h ⊢
      tauto
    · rw [alistSet_cons_ne h0] at h
      simp only [List.map_cons, List.mem_cons] at h ⊢
      rcases h with h | h
      · tauto
      · rcases ih h with h | h <;> tauto

theorem mem_keys_of_mem_keys_delete {V : Type} (m : List (String × V)) (k : String)
    (a : String) (h : a ∈ (alistDelete m k).map Prod.fst) :
    a ∈ m.map Prod.fst := by
  induction m with
  | nil => simpa [alistDelete] using h
  | cons p rest ih =>
    obtain ⟨k0, v0⟩ := p
    by_cases h0 : k0 = k
    · subst h0
      rw [alistDelete_cons_self] at h
      simp only [List.map_cons, List.mem_cons]
      tauto
    · rw [alistDelete_cons_ne h0] at h
      simp only [List.map_cons, List.mem_cons] at h ⊢
      tauto

theorem alistKeysNodup_set {V : Type} (m : List (String × V)) (k : String) (v : V)
    (h : alistKeysNodup m) : alistKeysNodup (alistSet m k v) := by
  induction m with
  | nil => simp [alistKeysNodup, alistSet]
  | cons p rest ih =>
    obtain ⟨k0, v0⟩ := p
    unfold alistKeysNodup at h ⊢
    simp only [List.map_cons, List.nodup_cons] at h
    by_cases h0 : k0 = k
    · subst h0
      rw [alistSet_cons_self]
      simp only [List.map_cons, List.nodup_cons]
      exact h
    · rw [alistSet_cons_ne h0]
      simp only [List.map_cons, List.nodup_cons]
      refine ⟨fun hm => ?_, ih h.2⟩
      rcases mem_keys_of_mem_keys_set rest k v k0 hm with h1 | h1
      · exact h0 h1
      · exact h.1 h1

theorem alistKeysNodup_delete {V : Type} (m : List (String × V)) (k : String)
    (h : alistKeysNodup m) : alistKeysNodup (alistDelete m k) := by
  induction m with
  | nil => exact h
  | cons p rest ih =>
    obtain ⟨k0, v0⟩ := p
    unfold alistKeysNodup at h ⊢
    simp only [List.map_cons, List.nodup_cons] at h
    by_cases h0 : k0 = k
    · subst h0
      rw [alistDelete_cons_self]
      exact h.2
    · rw [alistDelete_cons_ne h0]
      simp only [List.map_cons, List.nodup_cons]
      exact ⟨fun hm => h.1 (mem_keys_of_mem_keys_delete rest k k0 hm), ih h.2⟩

/-! ## Wire protocol data (src/lib/node-protocol.js) and pool data model -/

/-- One entry of a `scan_result.devices` list. Only the `rssi` field is ever
read by the pool (node-pool.js line 307); `none` models a non-numeric field. -/
structure Device where
  rssi : Option Int
deriving DecidableEq, Repr

/-- One `NodeEntry` of the pool (node-pool.js lines 69-78). The `ws`, timer
handles and `lastSeen` are modelled as outputs/events, not as entry data
(`lastSeen` is written but never read by any decision in the source). -/
structure NodeEntry where
  bleConnected : Bool
  lastBattery : Option Int
  isActive : Bool
  pongReceived : Bool
deriving DecidableEq, Repr

/-- The entry created by addNode (node-pool.js lines 69-78). -/
def freshEntry : NodeEntry :=
  { bleConnected := false, lastBattery := none, isActive := false, pongReceived := true }

/-- Inbound node messages dispatched by `_handleNodeMessage`. -/
inductive NodeMsg
  | status (bleConnected : Bool) (battery : Option Int)
  | scanResult (devices : List Device)
  | battery (level : Int)
  | rssi (value : Int)
  | commandResult (id : Nat) (success : Bool)
deriving DecidableEq, Repr

/-- Outbound messages the pool sends to a node (`_sendToNode`). -/
inductive OutMsg
  | scan (duration : Nat)
  | connect
  | disconnectBle
  | command (id : Nat) (dataHex : String)
  | getBattery
  | getRssi
deriving DecidableEq, Repr

/-- Events the pool emits (`this.emit`). -/
inductive PoolEvent
  | nodeConnected (nodeId : String)
  | nodeDisconnected (nodeId : String)
  | activeChanged (nodeId : String)
  | noActive
  | battery (level : Int)
  | rssi (value : Int)
deriving DecidableEq, Repr

/-- Observable effects of one pool operation, in program order. -/
inductive Output
  | sendTo (nodeId : String) (msg : OutMsg)
  | emitEvent (e : PoolEvent)
  | resolveCommand (id : Nat) (success : Bool)
  | armPingInterval (nodeId : String) (ms : Nat)
  | cancelPingInterval (nodeId : String)
  | closeNodeSocket (nodeId : String)
  | armElectTimer (ms : Nat)
  | armHandoffRetryTimer (ms : Nat)
  | cancelHandoffRetryTimer
  | armCommandTimer (id : Nat) (ms : Nat)
  | cancelCommandTimer (id : Nat)
  | pingNode (nodeId : String)
deriving DecidableEq, Repr

/-- `_config` of the NodePool (node-pool.js lines 38-43). -/
structure PoolConfig where
  pingInterval : Nat
  staleTimeout : Nat
  scanDuration : Nat
  handoffTimeout : Nat
deriving DecidableEq, Repr

def defaultPoolConfig : PoolConfig :=
  { pingInterval := 30000, staleTimeout := 60000, scanDuration := 10000, handoffTimeout := 30000 }

/-- The mutable state of a NodePool (node-pool.js constructor, lines 47-53).
`pendingCommands` stores only the ids: in the source the map value is the
promise resolver plus the timer handle, and an id is in the map iff its
timer is armed (both are created together and removed together). -/
structure PoolState where
  nodes : List (String × NodeEntry)
  activeNodeId : Option String
  handoffInProgress : Bool
  handoffTimerArmed : Bool
  pendingScanResults : Option (List (String × List Device))
  commandCounter : Nat
  pendingCommands : List Nat
deriving DecidableEq, Repr

def initPool : PoolState :=
  { nodes := [], activeNodeId := none, handoffInProgress := false, handoffTimerArmed := false,
    pendingScanResults := none, commandCounter := 0, pendingCommands := [] }

/-! ## Pool operations (node-pool.js) -/

/-- `_tryPromoteNode` (node-pool.js lines 225-249). -/
def tryPromoteNode (s : PoolState) (nodeId : String) : PoolState × List Output :=
  match alistGet s.nodes nodeId with
  | none => (s, [])
  | some entry =>
    if entry.bleConnected = false then (s, [])
    else
      match s.activeNodeId with
      | none =>
        ({ s with nodes := alistSet s.nodes nodeId { entry with isActive := true },
                  activeNodeId := some nodeId,
                  handoffInProgress := false,
                  handoffTimerArmed := false },
         (if s.handoffTimerArmed then [Output.cancelHandoffRetryTimer] else []) ++
           [Output.emitEvent (PoolEvent.activeChanged nodeId)])
      | some act =>
        if act = nodeId then (s, [])
        else (s, [Output.sendTo nodeId OutMsg.disconnectBle])

/-- `triggerHandoff` (node-pool.js lines 261-291). The two `setTimeout`
calls are modelled as timer-arming outputs; their firing is the `elect`
and `handoffRetry` events of `poolStep`. -/
def triggerHandoff (cfg : PoolConfig) (s : PoolState) : PoolState × List Output :=
  if s.handoffInProgress then (s, [])
  else if s.nodes.isEmpty then (s, [Output.emitEvent PoolEvent.noActive])
  else
    let scanWait := cfg.scanDuration + 3000
    ({ s with handoffInProgress := true,
              pendingScanResults := some [],
              handoffTimerArmed := true },
     s.nodes.map (fun p => Output.sendTo p.1 (OutMsg.scan cfg.scanDuration)) ++
       [Output.armElectTimer scanWait,
        Output.armHandoffRetryTimer (cfg.handoffTimeout + scanWait)])

/-- `removeNode` (node-pool.js lines 128-151). -/
def removeNodeOp (cfg : PoolConfig) (s : PoolState) (nodeId : String) : PoolState × List Output :=
  match alistGet s.nodes nodeId with
  | none => (s, [])
  | some entry =>
    let s1 : PoolState := { s with nodes := alistDelete s.nodes nodeId }
    let pre := [Output.cancelPingInterval nodeId, Output.closeNodeSocket nodeId]
    if entry.isActive then
      let r := triggerHandoff cfg { s1 with activeNodeId := none }
      (r.1, pre ++ r.2 ++ [Output.emitEvent (PoolEvent.nodeDisconnected nodeId)])
    else
      (s1, pre ++ [Output.emitEvent (PoolEvent.nodeDisconnected nodeId)])

/-- `addNode` (node-pool.js lines 62-122). A reconnecting node is removed
first; the fresh entry is appended and its ping interval armed. -/
def addNodeOp (cfg : PoolConfig) (s : PoolState) (nodeId : String) : PoolState × List Output :=
  let r0 := if alistHas s.nodes nodeId then removeNodeOp cfg s nodeId else (s, [])
  ({ r0.1 with nodes := alistSet r0.1.nodes nodeId freshEntry },
   r0.2 ++ [Output.armPingInterval nodeId cfg.pingInterval,
            Output.emitEvent (PoolEvent.nodeConnected nodeId)])

/-- The comparison `typeof rssi === 'number' && rssi > bestRssi` with the
initial `bestRssi = -Infinity` (node-pool.js lines 299-311). -/
def rssiBeats (r : Int) : Option (String × Int) → Bool
  | none => true
  | some (_, b) => decide (b < r)

/-- The inner loop of `_electNode` over one node's devices. -/
def deviceFold (nid : String) : List Device → Option (String × Int) → Option (String × Int)
  | [], best => best
  | d :: ds, best =>
    match d.rssi with
    | some r => deviceFold nid ds (if rssiBeats r best then some (nid, r) else best)
    | none => deviceFold nid ds best

/-- The outer loop of `_electNode` over `pendingScanResults` in insertion
order, skipping nodes no longer in the pool (line 303). -/
def electFold (nodes : List (String × NodeEntry)) :
    List (String × List Device) → Option (String × Int) → Option (String × Int)
  | [], best => best
  | (nid, devs) :: rest, best =>
    electFold nodes rest (if alistHas nodes nid then deviceFold nid devs best else best)

/-- `_electNode` (node-pool.js lines 296-326). -/
def electNode (s : PoolState) : PoolState × List Output :=
  match s.pendingScanResults with
  | none => (s, [])
  | some m =>
    let best := electFold s.nodes m none
    let s1 : PoolState := { s with pendingScanResults := none }
    match best with
    | none => (s1, [])
    | some (w, _) => (s1, [Output.sendTo w OutMsg.connect])

/-- `_handleNodeMessage` (node-pool.js lines 158-218). -/
def handleNodeMessage (cfg : PoolConfig) (s : PoolState) (nodeId : String) (msg : NodeMsg) :
    PoolState × List Output :=
  match alistGet s.nodes nodeId with
  | none => (s, [])
  | some entry =>
    match msg with
    | NodeMsg.status ble batt =>
      let wasConnected := entry.bleConnected
      let e1 : NodeEntry := { entry with bleConnected := ble,
                                         lastBattery := match batt with
                                                        | some b => some b
                                                        | none => entry.lastBattery }
      if !wasConnected && ble then
        tryPromoteNode { s with nodes := alistSet s.nodes nodeId e1 } nodeId
      else if wasConnected && !ble && e1.isActive then
        triggerHandoff cfg { s with nodes := alistSet s.nodes nodeId { e1 with isActive := false },
                                    activeNodeId := none }
      else ({ s with nodes := alistSet s.nodes nodeId e1 }, [])
    | NodeMsg.scanResult devices =>
      match s.pendingScanResults with
      | some m => ({ s with pendingScanResults := some (alistSet m nodeId devices) }, [])
      | none => (s, [])
    | NodeMsg.battery level =>
      ({ s with nodes := alistSet s.nodes nodeId { entry with lastBattery := some level } },
       if entry.isActive then [Output.emitEvent (PoolEvent.battery level)] else [])
    | NodeMsg.rssi value =>
      (s, if entry.isActive then [Output.emitEvent (PoolEvent.rssi value)] else [])
    | NodeMsg.commandResult id success =>
      if id ∈ s.pendingCommands then
        ({ s with pendingCommands := s.pendingCommands.erase id },
         [Output.cancelCommandTimer id, Output.resolveCommand id success])
      else (s, [])

/-- `getActiveNode` (node-pool.js lines 332-335). -/
def getActiveNode (s : PoolState) : Option (String × NodeEntry) :=
  match s.activeNodeId with
  | none => none
  | some a => (alistGet s.nodes a).map (fun e => (a, e))

/-- The 5000 ms command timeout of `sendCommand` (node-pool.js line 371). -/
def commandTimeoutMs : Nat := 5000

/-- `sendCommand` (node-pool.js lines 356-376). The third component is the
allocated command id; `none` models the immediate `return false` when no
node is active. -/
def sendCommandOp (s : PoolState) (dataHex : String) :
    PoolState × (List Output × Option Nat) :=
  match getActiveNode s with
  | none => (s, ([], none))
  | some (nid, _) =>
    let id := s.commandCounter + 1
    ({ s with commandCounter := id, pendingCommands := s.pendingCommands ++ [id] },
     ([Output.armCommandTimer id commandTimeoutMs,
       Output.sendTo nid (OutMsg.command id dataHex)],
      some id))

/-- The timeout callback of `sendCommand` firing (node-pool.js lines
367-371): it deletes the pending entry and resolves the promise with
`false`. Firing for an id that is no longer pending is a no-op (the
source clears the timer exactly when it deletes the entry). -/
def commandTimeoutFire (s : PoolState) (id : Nat) : PoolState × List Output :=
  if id ∈ s.pendingCommands then
    ({ s with pendingCommands := s.pendingCommands.erase id },
     [Output.resolveCommand id false])
  else (s, [])

/-- The per-node ping interval callback (node-pool.js lines 81-93).
The `ws.ping()` throw path is not modelled (it would remove the node as
well); the success path pings and clears the pong flag. -/
def tickNode (cfg : PoolConfig) (s : PoolState) (nodeId : String) : PoolState × List Output :=
  match alistGet s.nodes nodeId with
  | none => (s, [])
  | some entry =>
    if entry.pongReceived = false then removeNodeOp cfg s nodeId
    else
      ({ s with nodes := alistSet s.nodes nodeId { entry with pongReceived := false } },
       [Output.pingNode nodeId])

/-- The `pong` listener (node-pool.js lines 95-98). -/
def pongNode (s : PoolState) (nodeId : String) : PoolState × List Output :=
  match alistGet s.nodes nodeId with
  | none => (s, [])
  | some entry =>
    ({ s with nodes := alistSet s.nodes nodeId { entry with pongReceived := true } }, [])

/-- The handoff retry timer callback (node-pool.js lines 284-290). -/
def handoffRetryFire (cfg : PoolConfig) (s : PoolState) : PoolState × List Output :=
  if s.handoffTimerArmed = false then (s, [])
  else
    let s0 : PoolState := { s with handoffTimerArmed := false }
    if s0.activeNodeId.isNone && !s0.nodes.isEmpty then
      triggerHandoff cfg { s0 with handoffInProgress := false }
    else (s0, [])

/-- The event alphabet of the pool: public operations, inbound message
dispatches, and timer firings. -/
inductive Event
  | addNode (nodeId : String)
  | removeNode (nodeId : String)
  | nodeMsg (nodeId : String) (msg : NodeMsg)
  | elect
  | handoffRetry
  | sendCmd (dataHex : String)
  | cmdTimeout (id : Nat)
  | tick (nodeId : String)
  | pong (nodeId : String)
deriving DecidableEq, Repr

def poolStep (cfg : PoolConfig) (s : PoolState) : Event → PoolState × List Output
  | Event.addNode n => addNodeOp cfg s n
  | Event.removeNode n => removeNodeOp cfg s n
  | Event.nodeMsg n m => handleNodeMessage cfg s n m
  | Event.elect => electNode s
  | Event.handoffRetry => handoffRetryFire cfg s
  | Event.sendCmd d => let r := sendCommandOp s d; (r.1, r.2.1)
  | Event.cmdTimeout id => commandTimeoutFire s id
  | Event.tick n => tickNode cfg s n
  | Event.pong n => pongNode s n

def runTrace (cfg : PoolConfig) : PoolState → List Event → PoolState × List Output
  | s, [] => (s, [])
  | s, e :: rest =>
    let r := poolStep cfg s e
    let r' := runTrace cfg r.1 rest
    (r'.1, r.2 ++ r'.2)

/-- States reachable from a fresh pool by any event sequence (a superset
of the alphabet named in the claims, which also covers timer firings and
command submissions). -/
inductive Reachable (cfg : PoolConfig) : PoolState → Prop
  | init : Reachable cfg initPool
  | next {s : PoolState} (e : Event) : Reachable cfg s → Reachable cfg (poolStep cfg s e).1

/-! ## Device protocol codec and command routing (src/server.js,
src/unnamed/part_004 constants, src/unnamed/part_002 BleDevice) -/

/-- PROTOCOL constants (src/unnamed/part_004 lines 12-29). -/
def CMD_START : Int := 0xaa
def CMD_TYPE : Int := 0x07
def CMD_END : Int := 0xbb
def FIND_START : Int := 0xee
def FIND_TYPE : Int := 0x02
def BATTERY_START : Int := 0xdd
def BATTERY_TYPE : Int := 0xaa

/-- LIMITS (src/unnamed/part_004 lines 32-35). -/
def MIN_VALUE : Int := 0
def MAX_VALUE : Int := 100

/-- The `commands` argument of `sendCommand` (server.js line 224).
`none` models an absent or non-numeric field (JavaScript coerces the
latter to NaN, which the later `|| 0` fallback turns into 0). -/
structure Commands where
  shock : Option ℚ
  vibro : Option ℚ
  sound : Option ℚ
  find : Bool
deriving DecidableEq, Repr

/-- JavaScript `Math.round` on a rational: floor of x + 1/2
(round half toward positive infinity). -/
def jsRound (q : ℚ) : Int := ⌊q + 1 / 2⌋

/-- One iteration of the clamping loop of `sendCommand` (server.js lines
226-233): `Math.max(MIN_VALUE, Math.min(MAX_VALUE, Math.round(x)))`;
NaN propagates through all three and is modelled by `none`. -/
def clampValue (x : Option ℚ) : Option Int :=
  x.map (fun q => max MIN_VALUE (min MAX_VALUE (jsRound q)))

/-- The `commands.shock || 0` fallback (server.js lines 243-245):
undefined and NaN are falsy and become 0 (and clamped 0 stays 0). -/
def orZero (x : Option Int) : Int :=
  match x with
  | some z => z
  | none => 0

/-- The command frame built by the non-find branch of `sendCommand`
(server.js lines 246-253). -/
def encodeCommand (shock vibro sound : Option ℚ) : List Int :=
  [CMD_START, CMD_TYPE,
   orZero (clampValue shock), orZero (clampValue vibro), orZero (clampValue sound),
   CMD_END]

/-- The find frame (server.js line 241). -/
def findFrame : List Int := [FIND_START, FIND_TYPE, CMD_END]

/-- The battery-query frame of `BleDevice.requestBattery`
(src/unnamed/part_002 lines 295-303). -/
def batteryQueryFrame : List Int := [BATTERY_START, BATTERY_TYPE, CMD_END]

/-- Modelled from the spec: the claim's byte value, "clamped into
[0, 100] and rounded to the nearest integer" (half-up, as the source's
Math.round), with non-numeric inputs producing 0. Used as the
specification side to compare with the source-order computation
(which rounds first and clamps second). -/
def specByte (x : Option ℚ) : Int :=
  match x with
  | some q => jsRound (max 0 (min 100 q))
  | none => 0

/-- The write schedule produced by one `sendCommand(commands)` call
(server.js lines 224-260): pairs of (delay in ms, frame). The non-find
branch writes the frame immediately and schedules an identical write
300 ms later; the find branch writes once. -/
def sendCommandWrites (c : Commands) : List (Nat × List Int) :=
  if c.find then [(0, findFrame)]
  else
    let frame := encodeCommand c.shock c.vibro c.sound
    [(0, frame), (300, frame)]

/-- The single write of `BleDevice.requestBattery`
(src/unnamed/part_002 lines 295-303). -/
def requestBatteryWrites : List (Nat × List Int) := [(0, batteryQueryFrame)]

/-- The routing state read by `bleWriteAsync` (server.js lines 196-209). -/
structure RouteState where
  localConnected : Bool
  activeNode : Option String
deriving DecidableEq, Repr

inductive WriteTarget
  | localBle
  | node (nodeId : String)
deriving DecidableEq, Repr

/-- The endpoint chosen by `bleWriteAsync`: local BLE first, else the
active forwarder node, else no path (server.js lines 196-209). -/
def bleWriteTarget (st : RouteState) : Option WriteTarget :=
  if st.localConnected then some WriteTarget.localBle
  else
    match st.activeNode with
    | some n => some (WriteTarget.node n)
    | none => none

/-! ## Agent channel server: the per-connection auth gate
(server.js lines 263-314, src/lib/node-protocol.js lines 30-40) -/

/-- A raw WebSocket message as seen by `parseMessage`: either malformed
(unparseable JSON, or a missing / non-string `type`), or an object with
a string `type` and the optional fields the auth gate reads. -/
inductive RawMsg
  | malformed
  | obj (type : String) (token : Option String) (nodeId : Option String)
deriving DecidableEq, Repr

structure ParsedMsg where
  type : String
  token : Option String
  nodeId : Option String
deriving DecidableEq, Repr

/-- `parseMessage` (node-protocol.js lines 30-40): `null` for malformed
input, the object otherwise. -/
def parseMessage : RawMsg → Option ParsedMsg
  | RawMsg.malformed => none
  | RawMsg.obj t tok nid => some ⟨t, tok, nid⟩

/-- Per-connection state of the agent channel server
(server.js lines 265-275): the `authenticated` flag, whether `ws.close()`
has been called, whether the 5 s auth timeout is still armed, and the
node id fixed at authentication. -/
structure ConnState where
  authenticated : Bool
  closed : Bool
  authTimeoutArmed : Bool
  nodeId : Option String
deriving DecidableEq, Repr

def initConn : ConnState :=
  { authenticated := false, closed := false, authTimeoutArmed := true, nodeId := none }

inductive ConnOut
  | sendAuthResult (success : Bool)
  | closeLink
  | clearAuthTimeout
  | addNodeToPool (nodeId : String)
deriving DecidableEq, Repr

/-- The auth configuration (server.js lines 54-57): authentication is
enabled iff the configured token is a non-empty string other than
"none"; `authToken` is only meaningful when enabled. -/
structure AuthConfig where
  authEnabled : Bool
  authToken : String
deriving DecidableEq, Repr

/-- The `ws.on('message')` handler of the agent channel server
(server.js lines 277-309). `genId` stands for the generated
`node-${Date.now()}` fallback name. -/
def connMessage (cfg : AuthConfig) (genId : String) (st : ConnState) (raw : RawMsg) :
    ConnState × List ConnOut :=
  match parseMessage raw with
  | none => (st, [])
  | some msg =>
    if st.authenticated then (st, [])
    else if msg.type ≠ "auth" then
      ({ st with closed := true }, [ConnOut.sendAuthResult false, ConnOut.closeLink])
    else if cfg.authEnabled && msg.token ≠ some cfg.authToken then
      ({ st with closed := true }, [ConnOut.sendAuthResult false, ConnOut.closeLink])
    else
      let nid := msg.nodeId.getD genId
      ({ st with authenticated := true, authTimeoutArmed := false, nodeId := some nid },
       [ConnOut.clearAuthTimeout, ConnOut.sendAuthResult true, ConnOut.addNodeToPool nid])

/-! ## Forwarder reconnect backoff (src/forwarder.js) -/

/-- Events seen by the forwarder's WebSocket client: the socket opening,
the socket closing (also the outcome of any failed connect attempt, which
fires 'close' and thus `scheduleReconnect`), and an `auth_result`
message. -/
inductive FwdEvent
  | wsOpen
  | wsClose
  | authResult (success : Bool)
deriving DecidableEq, Repr

structure FwdState where
  reconnectDelay : Nat
  statusIntervalOn : Bool
deriving DecidableEq, Repr

def MAX_RECONNECT_DELAY : Nat := 30000

/-- `let reconnectDelay = 1000` (forwarder.js line 64). -/
def initFwd : FwdState := { reconnectDelay := 1000, statusIntervalOn := false }

inductive FwdOut
  | sendAuth
  | startStatusInterval
  | scheduleReconnect (delay : Nat)
  | requestClose
deriving DecidableEq, Repr

/-- The forwarder's connection event handling (forwarder.js lines
96-176): 'open' resets the backoff to 1 s and authenticates;
'close' schedules a reconnect after the current delay and doubles it
(capped at 30 s, `scheduleReconnect`, lines 172-176); a failed
`auth_result` closes the socket; a successful one starts the status
interval and does not touch the delay. -/
def fwdStep (s : FwdState) : FwdEvent → FwdState × List FwdOut
  | FwdEvent.wsOpen =>
    ({ s with reconnectDelay := 1000 }, [FwdOut.sendAuth])
  | FwdEvent.wsClose =>
    ({ s with statusIntervalOn := false,
              reconnectDelay := min (s.reconnectDelay * 2) MAX_RECONNECT_DELAY },
     [FwdOut.scheduleReconnect s.reconnectDelay])
  | FwdEvent.authResult true =>
    ({ s with statusIntervalOn := true }, [FwdOut.startStatusInterval])
  | FwdEvent.authResult false =>
    (s, [FwdOut.requestClose])

def runFwd : FwdState → List FwdEvent → FwdState × List FwdOut
  | s, [] => (s, [])
  | s, e :: rest =>
    let r := fwdStep s e
    let r' := runFwd r.1 rest
    (r'.1, r.2 ++ r'.2)

/-! ## Claim C3: command encoding -/

theorem jsRound_intCast (z : Int) : jsRound (z : ℚ) = z := by
  unfold jsRound
  rw [add_comm, Int.floor_add_int]
  have h0 : ⌊(1 / 2 : ℚ)⌋ = 0 := by
    rw [Int.floor_eq_zero_iff, Set.mem_Ico]
    constructor <;> norm_num
  omega

theorem jsRound_le_jsRound {p q : ℚ} (h : p ≤ q) : jsRound p ≤ jsRound q := by
  unfold jsRound
  exact Int.floor_le_floor (by linarith)

/-- Rounding first and clamping second (the source order, server.js lines
228-231) agrees with clamping first and rounding second (the claim's
phrasing), because the bounds 0 and 100 are fixed points of rounding. -/
theorem clamp_round_comm (q : ℚ) :
    max MIN_VALUE (min MAX_VALUE (jsRound q)) = jsRound (max 0 (min 100 q)) := by
  have h0 : jsRound (0 : ℚ) = 0 := by
    have := jsRound_intCast 0
    simpa using this
  have h100 : jsRound (100 : ℚ) = 100 := by
    have := jsRound_intCast 100
    simpa using this
  unfold MIN_VALUE MAX_VALUE
  rcases le_total q 0 with hq0 | hq0
  · have h1 : min (100 : ℚ) q = q := min_eq_right (hq0.trans (by norm_num))
    have h2 : max (0 : ℚ) q = 0 := max_eq_left hq0
    rw [h1, h2, h0]
    have h3 : jsRound q ≤ 0 := h0 ▸ jsRound_le_jsRound hq0
    have h4 : min (100 : Int) (jsRound q) = jsRound q := min_eq_right (by omega)
    rw [h4]
    omega
  · rcases le_total q 100 with hq1 | hq1
    · have h1 : min (100 : ℚ) q = q := min_eq_right hq1
      have h2 : max (0 : ℚ) q = q := max_eq_right hq0
      rw [h1, h2]
      have h3 : (0 : Int) ≤ jsRound q := h0 ▸ jsRound_le_jsRound hq0
      have h4 : jsRound q ≤ 100 := h100 ▸ jsRound_le_jsRound hq1
      have h5 : min (100 : Int) (jsRound q) = jsRound q := min_eq_right (by omega)
      rw [h5]
      omega
    · have h1 : min (100 : ℚ) q = 100 := min_eq_left hq1
      have h2 : max (0 : ℚ) (100 : ℚ) = 100 := max_eq_right (by norm_num)
      rw [h1, h2, h100]
      have h3 : (100 : Int) ≤ jsRound q := h100 ▸ jsRound_le_jsRound hq1
      have h4 : min (100 : Int) (jsRound q) = 100 := min_eq_left (by omega)
      rw [h4]
      omega

theorem orZero_clampValue (x : Option ℚ) : orZero (clampValue x) = specByte x := by
  cases x with
  | none => rfl
  | some q =>
    show max MIN_VALUE (min MAX_VALUE (jsRound q)) = specByte (some q)
    rw [clamp_round_comm]
    rfl

theorem specByte_bounds (x : Option ℚ) : 0 ≤ specByte x ∧ specByte x ≤ 100 := by
  rw [← orZero_clampValue]
  cases x with
  | none => norm_num [clampValue, orZero]
  | some q =>
    show 0 ≤ max MIN_VALUE (min MAX_VALUE (jsRound q)) ∧
         max MIN_VALUE (min MAX_VALUE (jsRound q)) ≤ 100
    unfold MIN_VALUE MAX_VALUE
    omega

/-- C3 (confirmed). For all inputs, the encoded command frame is exactly
the 6 bytes AA 07 s v o BB where s, v, o are the inputs clamped into
[0, 100] and rounded to the nearest integer (half-up, as Math.round),
non-numeric inputs produce the byte 0, and in particular
encodeCommand(-1, 200, 50) yields AA 07 00 64 32 BB
(server.js sendCommand lines 224-260, constants src/unnamed/part_004). -/
theorem C3_encode_command :
    (∀ shock vibro sound : Option ℚ,
       encodeCommand shock vibro sound =
         [0xAA, 0x07, specByte shock, specByte vibro, specByte sound, 0xBB]) ∧
    (∀ x : Option ℚ, 0 ≤ specByte x ∧ specByte x ≤ 100) ∧
    specByte none = 0 ∧
    encodeCommand (some (-1)) (some 200) (some 50) =
      [0xAA, 0x07, 0x00, 0x64, 0x32, 0xBB] := by
  have henc : ∀ shock vibro sound : Option ℚ,
      encodeCommand shock vibro sound =
        [0xAA, 0x07, specByte shock, specByte vibro, specByte sound, 0xBB] := by
    intro shock vibro sound
    unfold encodeCommand CMD_START CMD_TYPE CMD_END
    rw [orZero_clampValue, orZero_clampValue, orZero_clampValue]
  refine ⟨henc, specByte_bounds, rfl, ?_⟩
  rw [henc]
  have hm1 : specByte (some (-1)) = 0 := by
    rw [← orZero_clampValue]
    have : jsRound (-1 : ℚ) = -1 := by
      have := jsRound_intCast (-1)
      simpa using this
    simp [clampValue, orZero, this, MIN_VALUE, MAX_VALUE]
  have h200 : specByte (some 200) = 100 := by
    rw [← orZero_clampValue]
    have : jsRound (200 : ℚ) = 200 := by
      have := jsRound_intCast 200
      simpa using this
    simp [clampValue, orZero, this, MIN_VALUE, MAX_VALUE]
  have h50 : specByte (some 50) = 50 := by
    rw [← orZero_clampValue]
    have : jsRound (50 : ℚ) = 50 := by
      have := jsRound_intCast 50
      simpa using this
    simp [clampValue, orZero, this, MIN_VALUE, MAX_VALUE]
  rw [hm1, h200, h50]

/-! ## Claim C6: double-send of normal commands -/

/-- C6 (confirmed). A shock/vibro/sound command is written twice, the
second write 300 ms after the first, with the identical frame; a find
command and the battery-query frame are written once; with an unchanged
routing state both writes resolve to the same endpoint
(server.js sendCommand lines 224-260 and bleWriteAsync lines 196-209;
BleDevice.requestBattery src/unnamed/part_002 lines 295-303). -/
theorem C6_double_send :
    (∀ shock vibro sound : Option ℚ,
       sendCommandWrites ⟨shock, vibro, sound, false⟩ =
         [(0, encodeCommand shock vibro sound), (300, encodeCommand shock vibro sound)]) ∧
    (∀ shock vibro sound : Option ℚ,
       sendCommandWrites ⟨shock, vibro, sound, true⟩ = [(0, findFrame)]) ∧
    requestBatteryWrites = [(0, batteryQueryFrame)] ∧
    (∀ shock vibro sound : Option ℚ, ∀ st : RouteState,
       (sendCommandWrites ⟨shock, vibro, sound, false⟩).map
           (fun w => (w.1, bleWriteTarget st)) =
         [(0, bleWriteTarget st), (300, bleWriteTarget st)]) :=
  ⟨fun _ _ _ => rfl, fun _ _ _ => rfl, rfl, fun _ _ _ _ => rfl⟩

/-! ## Claim C9: forwarder reconnect backoff -/

theorem runFwd_append (s : FwdState) (t1 t2 : List FwdEvent) :
    (runFwd s (t1 ++ t2)).1 = (runFwd (runFwd s t1).1 t2).1 := by
  induction t1 generalizing s with
  | nil => rfl
  | cons e rest ih => simp [runFwd, ih]

/-- C9 counterexample (closed). After two connection failures the backoff
is 4000 ms; the next socket 'open' alone — with no `auth_result` at all,
let alone a successful one — resets it to 1000 ms (forwarder.js line 98).
This refutes the claim that the delay "resets to 1 s only upon successful
authentication". -/
theorem C9_counterexample :
    (runFwd initFwd [FwdEvent.wsClose, FwdEvent.wsClose]).1.reconnectDelay = 4000 ∧
    (runFwd initFwd [FwdEvent.wsClose, FwdEvent.wsClose, FwdEvent.wsOpen]).1.reconnectDelay
      = 1000 ∧
    FwdEvent.authResult true ∉ [FwdEvent.wsClose, FwdEvent.wsClose, FwdEvent.wsOpen] := by
  refine ⟨rfl, rfl, by decide⟩

/-- C9 amended (proved). The backoff starts at 1 s; after n consecutive
failures it is min(1000·2^n, 30000), i.e. it doubles per failure and is
capped at 30 s; each close schedules a reconnect after the pre-doubling
delay; the reset to 1 s happens when the WebSocket connection opens
(before authentication), and `auth_result` messages never change the
delay (forwarder.js lines 64, 96-105, 172-176). -/
theorem C9_amended_backoff :
    initFwd.reconnectDelay = 1000 ∧
    (∀ n : Nat, (runFwd initFwd (List.replicate n FwdEvent.wsClose)).1.reconnectDelay
        = min (1000 * 2 ^ n) 30000) ∧
    (∀ s : FwdState, (fwdStep s FwdEvent.wsOpen).1.reconnectDelay = 1000) ∧
    (∀ s : FwdState, ∀ b : Bool,
       (fwdStep s (FwdEvent.authResult b)).1.reconnectDelay = s.reconnectDelay) ∧
    (∀ s : FwdState, (fwdStep s FwdEvent.wsClose).2 =
       [FwdOut.scheduleReconnect s.reconnectDelay]) ∧
    (∀ s : FwdState, (fwdStep s FwdEvent.wsClose).1.reconnectDelay ≤ 30000) := by
  refine ⟨rfl, ?_, fun s => rfl, ?_, fun s => rfl, ?_⟩
  · intro n
    induction n with
    | zero => rfl
    | succ n ih =>
      have hstep : (runFwd initFwd (List.replicate (n + 1) FwdEvent.wsClose)).1.reconnectDelay
          = min ((runFwd initFwd (List.replicate n FwdEvent.wsClose)).1.reconnectDelay * 2)
              MAX_RECONNECT_DELAY := by
        rw [List.replicate_succ', runFwd_append]
        rfl
      rw [hstep, ih]
      have hab : 1000 * 2 ^ (n + 1) = 1000 * 2 ^ n * 2 := by rw [pow_succ, mul_assoc]
      unfold MAX_RECONNECT_DELAY
      omega
  · intro s b
    cases b <;> rfl
  · intro s
    show min (s.reconnectDelay * 2) MAX_RECONNECT_DELAY ≤ 30000
    unfold MAX_RECONNECT_DELAY
    omega

/-! ## Claim C5: the auth gate on an unauthenticated agent link -/

/-- C5 (confirmed). On an unauthenticated link: a malformed raw message
(unparseable JSON or missing/non-string type) is silently discarded —
the connection state, including the armed auth-timeout, is untouched and
nothing is sent; a parseable non-auth first message yields
auth_result{success:false} and a close; so does an auth message with a
mismatching token while authentication is enabled
(server.js lines 263-314, node-protocol.js parseMessage lines 30-40). -/
theorem C5_auth_gate (cfg : AuthConfig) (genId : String) (st : ConnState) (raw : RawMsg)
    (hauth : st.authenticated = false) :
    (parseMessage raw = none → connMessage cfg genId st raw = (st, [])) ∧
    (∀ msg, parseMessage raw = some msg → msg.type ≠ "auth" →
       connMessage cfg genId st raw =
         ({ st with closed := true }, [ConnOut.sendAuthResult false, ConnOut.closeLink])) ∧
    (∀ msg, parseMessage raw = some msg → msg.type = "auth" →
       cfg.authEnabled = true → msg.token ≠ some cfg.authToken →
       connMessage cfg genId st raw =
         ({ st with closed := true }, [ConnOut.sendAuthResult false, ConnOut.closeLink])) := by
  refine ⟨?_, ?_, ?_⟩
  · intro hp
    unfold connMessage
    rw [hp]
  · intro msg hp ht
    unfold connMessage
    rw [hp]
    simp [hauth, ht]
  · intro msg hp ht he htok
    unfold connMessage
    rw [hp]
    simp [hauth, ht, he, htok]

/-- Witness for C5 at concrete inputs: a malformed message, a parseable
`status` message, and an `auth` with a wrong token, all on a fresh
unauthenticated connection with authentication enabled. -/
theorem C5_auth_gate_witness :
    connMessage ⟨true, "secret"⟩ "gen" initConn RawMsg.malformed = (initConn, []) ∧
    connMessage ⟨true, "secret"⟩ "gen" initConn (RawMsg.obj "status" none none) =
      ({ initConn with closed := true },
       [ConnOut.sendAuthResult false, ConnOut.closeLink]) ∧
    connMessage ⟨true, "secret"⟩ "gen" initConn (RawMsg.obj "auth" (some "wrong") none) =
      ({ initConn with closed := true },
       [ConnOut.sendAuthResult false, ConnOut.closeLink]) :=
  ⟨(C5_auth_gate ⟨true, "secret"⟩ "gen" initConn RawMsg.malformed rfl).1 rfl,
   (C5_auth_gate ⟨true, "secret"⟩ "gen" initConn (RawMsg.obj "status" none none) rfl).2.1
     ⟨"status", none, none⟩ rfl (by decide),
   (C5_auth_gate ⟨true, "secret"⟩ "gen" initConn (RawMsg.obj "auth" (some "wrong") none) rfl).2.2
     ⟨"auth", some "wrong", none⟩ rfl rfl rfl (by decide)⟩

/-! ## Claim C10: sendCommand with no active node -/

/-- C10 (confirmed). If `sendCommand` is invoked while no active node
exists it returns false immediately (modelled by the `none` id) and
performs no state change at all: the counter is not incremented, no
pending entry is added, and nothing is sent (node-pool.js lines 356-362:
the early return precedes the `++this._commandCounter`). -/
theorem C10_send_command_no_active (s : PoolState) (d : String)
    (h : getActiveNode s = none) :
    sendCommandOp s d = (s, ([], none)) := by
  unfold sendCommandOp
  rw [h]

/-- Witness for C10 at the fresh pool. -/
theorem C10_send_command_no_active_witness :
    sendCommandOp initPool "aa070000bb" = (initPool, ([], none)) :=
  C10_send_command_no_active initPool "aa070000bb" rfl

/-! ## Claim C2: the election -/

/-- Modelled from the spec: the flattened list of (nodeId, rssi) pairs the
election considers — all numeric RSSI values of all devices reported by
nodes that still exist in the pool, in insertion order of
`pendingScanResults`. -/
def flatConsidered (nodes : List (String × NodeEntry)) (m : List (String × List Device)) :
    List (String × Int) :=
  m.flatMap (fun p =>
    if alistHas nodes p.1 then p.2.filterMap (fun d => d.rssi.map (fun r => (p.1, r)))
    else [])

/-- Modelled from the spec: pick the pair with the numerically largest
RSSI, ties broken in favour of the earlier (first-found) pair. -/
def firstMax : List (String × Int) → Option (String × Int)
  | [] => none
  | p :: rest =>
    match firstMax rest with
    | none => some p
    | some q => if p.2 < q.2 then some q else some p

/-- Combine two candidate results, preferring the left (earlier) one on
ties: the right one wins only if strictly greater. -/
def prefEarlier : Option (String × Int) → Option (String × Int) → Option (String × Int)
  | x, none => x
  | none, some q => some q
  | some p, some q => if p.2 < q.2 then some q else some p

theorem prefEarlier_none_right (x : Option (String × Int)) : prefEarlier x none = x := by
  cases x <;> rfl

theorem prefEarlier_none_left (y : Option (String × Int)) : prefEarlier none y = y := by
  cases y <;> rfl

theorem firstMax_cons (p : String × Int) (rest : List (String × Int)) :
    firstMax (p :: rest) = prefEarlier (some p) (firstMax rest) := by
  show (match firstMax rest with
        | none => some p
        | some q => if p.2 < q.2 then some q else some p) =
    prefEarlier (some p) (firstMax rest)
  cases h : firstMax rest with
  | none => rfl
  | some q => rfl

theorem prefEarlier_assoc (x y z : Option (String × Int)) :
    prefEarlier (prefEarlier x y) z = prefEarlier x (prefEarlier y z) := by
  cases x with
  | none => rw [prefEarlier_none_left, prefEarlier_none_left]
  | some p =>
    cases y with
    | none => rw [prefEarlier_none_right, prefEarlier_none_left]
    | some q =>
      cases z with
      | none => rw [prefEarlier_none_right, prefEarlier_none_right]
      | some t =>
        show prefEarlier (if p.2 < q.2 then some q else some p) (some t) =
             prefEarlier (some p) (if q.2 < t.2 then some t else some q)
        by_cases h1 : p.2 < q.2
        · rw [if_pos h1]
          by_cases h2 : q.2 < t.2
          · rw [if_pos h2]
            show (if q.2 < t.2 then some t else some q) = if p.2 < t.2 then some t else some p
            rw [if_pos h2, if_pos (h1.trans h2)]
          · rw [if_neg h2]
            show (if q.2 < t.2 then some t else some q) = if p.2 < q.2 then some q else some p
            rw [if_neg h2, if_pos h1]
        · rw [if_neg h1]
          by_cases h2 : q.2 < t.2
          · rw [if_pos h2]
          · rw [if_neg h2]
            show (if p.2 < t.2 then some t else some p) = if p.2 < q.2 then some q else some p
            rw [if_neg (by omega : ¬p.2 < t.2), if_neg h1]

theorem firstMax_append (a b : List (String × Int)) :
    firstMax (a ++ b) = prefEarlier (firstMax a) (firstMax b) := by
  induction a with
  | nil => rw [List.nil_append, firstMax, prefEarlier_none_left]
  | cons p rest ih =>
    rw [List.cons_append, firstMax_cons, ih, firstMax_cons, prefEarlier_assoc]

/-- One update of the fold accumulator is exactly `prefEarlier` with the
new candidate on the right. -/
theorem update_eq_prefEarlier (nid : String) (r : Int) (best : Option (String × Int)) :
    (if rssiBeats r best then some (nid, r) else best) = prefEarlier best (some (nid, r)) := by
  cases best with
  | none => rfl
  | some q =>
    show (if decide (q.2 < r) = true then some (nid, r) else some q) =
         if q.2 < r then some (nid, r) else some q
    by_cases h : q.2 < r
    · rw [if_pos h, if_pos (by simpa using h)]
    · rw [if_neg h, if_neg (by simpa using h)]

theorem prefEarlier_some_some (p q : String × Int) :
    prefEarlier (some p) (some q) = if p.2 < q.2 then some q else some p := rfl

theorem deviceFold_eq (nid : String) (ds : List Device) (best : Option (String × Int)) :
    deviceFold nid ds best =
      prefEarlier best (firstMax (ds.filterMap (fun d => d.rssi.map (fun r => (nid, r))))) := by
  induction ds generalizing best with
  | nil =>
    show best = prefEarlier best (firstMax (List.filterMap _ []))
    rw [List.filterMap_nil, firstMax, prefEarlier_none_right]
  | cons d rest ih =>
    cases hd : d.rssi with
    | none =>
      have h2 : (d :: rest).filterMap (fun d => d.rssi.map (fun r => (nid, r))) =
          rest.filterMap (fun d => d.rssi.map (fun r => (nid, r))) := by
        simp [List.filterMap_cons, hd]
      simp only [deviceFold, hd]
      rw [h2, ih]
    | some r =>
      have h2 : (d :: rest).filterMap (fun d => d.rssi.map (fun r => (nid, r))) =
          (nid, r) :: rest.filterMap (fun d => d.rssi.map (fun r => (nid, r))) := by
        simp [List.filterMap_cons, hd]
      simp only [deviceFold, hd]
      rw [ih, update_eq_prefEarlier, prefEarlier_assoc, h2, firstMax_cons]

theorem electFold_eq (nodes : List (String × NodeEntry)) (m : List (String × List Device))
    (best : Option (String × Int)) :
    electFold nodes m best = prefEarlier best (firstMax (flatConsidered nodes m)) := by
  induction m generalizing best with
  | nil =>
    show best = prefEarlier best (firstMax (flatConsidered nodes []))
    have hnil : flatConsidered nodes [] = [] := by simp [flatConsidered]
    rw [hnil, firstMax, prefEarlier_none_right]
  | cons p rest ih =>
    obtain ⟨nid, devs⟩ := p
    show electFold nodes rest (if alistHas nodes nid then deviceFold nid devs best else best) =
      prefEarlier best (firstMax (flatConsidered nodes ((nid, devs) :: rest)))
    have hflat : flatConsidered nodes ((nid, devs) :: rest) =
        (if alistHas nodes nid
         then devs.filterMap (fun d => d.rssi.map (fun r => (nid, r)))
         else []) ++ flatConsidered nodes rest := by
      rw [flatConsidered, List.flatMap_cons]
      rfl
    rw [hflat, firstMax_append]
    by_cases h : alistHas nodes nid
    · rw [if_pos h, if_pos h, ih, deviceFold_eq, prefEarlier_assoc]
    · rw [if_neg h, if_neg h, ih, firstMax, prefEarlier_none_left]

theorem firstMax_cons_isSome (b : String × Int) (l : List (String × Int)) :
    (firstMax (b :: l)).isSome = true := by
  rw [firstMax_cons]
  cases h : firstMax l with
  | none => rfl
  | some t =>
    rw [prefEarlier_some_some]
    by_cases hc : b.2 < t.2
    · rw [if_pos hc]
      rfl
    · rw [if_neg hc]
      rfl

theorem firstMax_mem : ∀ (l : List (String × Int)) (p : String × Int),
    firstMax l = some p → p ∈ l := by
  intro l
  induction l with
  | nil =>
    intro p h
    exact absurd h (by simp [firstMax])
  | cons q rest ih =>
    intro p h
    rw [firstMax_cons] at h
    cases hr : firstMax rest with
    | none =>
      rw [hr, prefEarlier_none_right, Option.some.injEq] at h
      exact List.mem_cons.mpr (Or.inl h.symm)
    | some t =>
      rw [hr, prefEarlier_some_some] at h
      by_cases hc : q.2 < t.2
      · rw [if_pos hc, Option.some.injEq] at h
        exact List.mem_cons.mpr (Or.inr (h ▸ ih t hr))
      · rw [if_neg hc, Option.some.injEq] at h
        exact List.mem_cons.mpr (Or.inl h.symm)

theorem firstMax_is_max : ∀ (l : List (String × Int)) (p : String × Int),
    firstMax l = some p → ∀ q ∈ l, q.2 ≤ p.2 := by
  intro l
  induction l with
  | nil =>
    intro p h
    exact absurd h (by simp [firstMax])
  | cons a rest ih =>
    intro p h q hq
    rw [firstMax_cons] at h
    cases hr : firstMax rest with
    | none =>
      rw [hr, prefEarlier_none_right, Option.some.injEq] at h
      subst h
      rcases List.mem_cons.mp hq with h1 | h1
      · subst h1
        omega
      · cases rest with
        | nil => simp at h1
        | cons b rest2 =>
          have hs := firstMax_cons_isSome b rest2
          rw [hr] at hs
          simp at hs
    | some t =>
      rw [hr, prefEarlier_some_some] at h
      rcases List.mem_cons.mp hq with h1 | h1
      · subst h1
        by_cases hc : q.2 < t.2
        · rw [if_pos hc, Option.some.injEq] at h
          subst h
          omega
        · rw [if_neg hc, Option.some.injEq] at h
          subst h
          omega
      · have hqt : q.2 ≤ t.2 := ih t hr q h1
        by_cases hc : a.2 < t.2
        · rw [if_pos hc, Option.some.injEq] at h
          subst h
          omega
        · rw [if_neg hc, Option.some.injEq] at h
          subst h
          omega

theorem firstMax_first : ∀ (l : List (String × Int)) (p : String × Int),
    firstMax l = some p →
    ∃ pre post, l = pre ++ p :: post ∧ ∀ q ∈ pre, q.2 < p.2 := by
  intro l
  induction l with
  | nil =>
    intro p h
    exact absurd h (by simp [firstMax])
  | cons a rest ih =>
    intro p h
    rw [firstMax_cons] at h
    cases hr : firstMax rest with
    | none =>
      rw [hr, prefEarlier_none_right, Option.some.injEq] at h
      exact ⟨[], rest, by rw [h]; rfl, by simp⟩
    | some t =>
      rw [hr, prefEarlier_some_some] at h
      by_cases hc : a.2 < t.2
      · rw [if_pos hc, Option.some.injEq] at h
        subst h
        obtain ⟨pre, post, hl, hlt⟩ := ih t hr
        refine ⟨a :: pre, post, ?_, ?_⟩
        · rw [List.cons_append, hl]
        · intro q hq
          rcases List.mem_cons.mp hq with h1 | h1
          · subst h1
            exact hc
          · exact hlt q h1
      · rw [if_neg hc, Option.some.injEq] at h
        exact ⟨[], rest, by rw [h]; rfl, by simp⟩

theorem electNode_eq (s : PoolState) (m : List (String × List Device))
    (h : s.pendingScanResults = some m) :
    electNode s =
      ({ s with pendingScanResults := none },
       match firstMax (flatConsidered s.nodes m) with
       | none => []
       | some p => [Output.sendTo p.1 OutMsg.connect]) := by
  simp only [electNode, h]
  rw [show electFold s.nodes m none = firstMax (flatConsidered s.nodes m) from by
        rw [electFold_eq, prefEarlier_none_left]]
  cases firstMax (flatConsidered s.nodes m) with
  | none => rfl
  | some p =>
    cases p with
    | mk w r => rfl

/-- C2 (confirmed). When `pendingScanResults` holds a map `m`, `_electNode`
changes exactly one thing in the pool state — it clears
`pendingScanResults` — and its only possible output is a single `connect`
to the winner of `firstMax (flatConsidered nodes m)`: the election
considers exactly the numeric RSSI values of nodes still present in the
pool, the winner's winning RSSI is a maximum over all considered values,
the winner is the first-found candidate in insertion order (every
considered value strictly before it is smaller), and when no candidate
exists nothing is sent (node-pool.js _electNode lines 296-326; the retry
timer is a separate event, `Event.handoffRetry`). -/
theorem C2_elect_node (s : PoolState) (m : List (String × List Device))
    (h : s.pendingScanResults = some m) :
    (electNode s).1 = { s with pendingScanResults := none } ∧
    ((electNode s).2 = match firstMax (flatConsidered s.nodes m) with
       | none => []
       | some p => [Output.sendTo p.1 OutMsg.connect]) ∧
    (∀ w r, firstMax (flatConsidered s.nodes m) = some (w, r) →
       (w, r) ∈ flatConsidered s.nodes m ∧
       (∀ q ∈ flatConsidered s.nodes m, q.2 ≤ r) ∧
       ∃ pre post, flatConsidered s.nodes m = pre ++ (w, r) :: post ∧
         ∀ q ∈ pre, q.2 < r) ∧
    (firstMax (flatConsidered s.nodes m) = none → (electNode s).2 = []) := by
  have he := electNode_eq s m h
  refine ⟨by rw [he], by rw [he], ?_, ?_⟩
  · intro w r hfm
    exact ⟨firstMax_mem _ _ hfm, firstMax_is_max _ _ hfm, firstMax_first _ _ hfm⟩
  · intro hfm
    rw [he, hfm]

/-- A concrete pool mid-handoff used as the C2 witness: node B reported
the strongest device (-50 dBm beats A's -70 dBm). -/
def electWitnessPool : PoolState :=
  { nodes := [("A", freshEntry), ("B", freshEntry)],
    activeNodeId := none, handoffInProgress := true, handoffTimerArmed := true,
    pendingScanResults := some [("A", [⟨some (-70)⟩]), ("B", [⟨some (-50)⟩, ⟨some (-80)⟩])],
    commandCounter := 0, pendingCommands := [] }

/-- Witness for C2: the election on `electWitnessPool` clears
`pendingScanResults` and sends `connect` to node B. -/
theorem C2_elect_node_witness :
    (electNode electWitnessPool).1 =
      { electWitnessPool with pendingScanResults := none } ∧
    (electNode electWitnessPool).2 = [Output.sendTo "B" OutMsg.connect] := by
  have h := C2_elect_node electWitnessPool
      [("A", [⟨some (-70)⟩]), ("B", [⟨some (-50)⟩, ⟨some (-80)⟩])] rfl
  refine ⟨h.1, ?_⟩
  rw [h.2.1]
  rfl

/-! ## Claim C1: the single-active invariant -/

/-- The inductive invariant: pool keys are unique, every active entry is
the one named by `activeNodeId` and is BLE-connected, and `activeNodeId`
always points at an existing active entry. -/
def PoolInv (s : PoolState) : Prop :=
  alistKeysNodup s.nodes ∧
  (∀ nid e, alistGet s.nodes nid = some e → e.isActive = true →
     s.activeNodeId = some nid ∧ e.bleConnected = true) ∧
  (∀ a, s.activeNodeId = some a → ∃ e, alistGet s.nodes a = some e ∧ e.isActive = true)

theorem PoolInv_congr {s t : PoolState} (hn : t.nodes = s.nodes)
    (ha : t.activeNodeId = s.activeNodeId) (h : PoolInv s) : PoolInv t := by
  unfold PoolInv at h ⊢
  rw [hn, ha]
  exact h

theorem triggerHandoff_fields (cfg : PoolConfig) (s : PoolState) :
    (triggerHandoff cfg s).1.nodes = s.nodes ∧
    (triggerHandoff cfg s).1.activeNodeId = s.activeNodeId ∧
    (triggerHandoff cfg s).1.commandCounter = s.commandCounter ∧
    (triggerHandoff cfg s).1.pendingCommands = s.pendingCommands := by
  unfold triggerHandoff
  split_ifs <;> exact ⟨rfl, rfl, rfl, rfl⟩

theorem triggerHandoff_inv (cfg : PoolConfig) (s : PoolState) (h : PoolInv s) :
    PoolInv (triggerHandoff cfg s).1 :=
  PoolInv_congr (triggerHandoff_fields cfg s).1 (triggerHandoff_fields cfg s).2.1 h

theorem bool_true_of_not_false {b : Bool} (h : ¬b = false) : b = true := by
  cases b
  · exact absurd rfl h
  · rfl

/-- Replacing a node's entry with one that has the same `isActive` flag
and stays connected when active preserves the invariant. -/
theorem PoolInv_set_entry (s : PoolState) (nid : String) {entry e1 : NodeEntry}
    (hg : alistGet s.nodes nid = some entry)
    (hia : e1.isActive = entry.isActive)
    (hble : entry.isActive = true → e1.bleConnected = true)
    (h : PoolInv s) : PoolInv { s with nodes := alistSet s.nodes nid e1 } := by
  obtain ⟨h1, h2, h3⟩ := h
  refine ⟨alistKeysNodup_set _ _ _ h1, ?_, ?_⟩
  · intro n e hge hact
    by_cases hn : n = nid
    · subst hn
      rw [alistGet_set_self] at hge
      injection hge with he
      subst he
      rw [hia] at hact
      exact ⟨(h2 n entry hg hact).1, hble hact⟩
    · rw [alistGet_set_ne _ _ _ _ hn] at hge
      exact h2 n e hge hact
  · intro a ha
    obtain ⟨e, hge, hact⟩ := h3 a ha
    by_cases hn : a = nid
    · subst hn
      rw [hg] at hge
      injection hge with he
      refine ⟨e1, alistGet_set_self _ _ _, ?_⟩
      rw [hia, he]
      exact hact
    · exact ⟨e, by rw [alistGet_set_ne _ _ _ _ hn]; exact hge, hact⟩

/-- Demoting the (unique) active entry while clearing `activeNodeId`
preserves the invariant. -/
theorem PoolInv_demote (s : PoolState) (nid : String) {entry e2 : NodeEntry}
    (hg : alistGet s.nodes nid = some entry) (hact : entry.isActive = true)
    (hia : e2.isActive = false) (h : PoolInv s) :
    PoolInv { s with nodes := alistSet s.nodes nid e2, activeNodeId := none } := by
  obtain ⟨h1, h2, h3⟩ := h
  refine ⟨alistKeysNodup_set _ _ _ h1, ?_, ?_⟩
  · intro n e hge hae
    by_cases hn : n = nid
    · subst hn
      rw [alistGet_set_self] at hge
      injection hge with he
      rw [← he, hia] at hae
      exact Bool.noConfusion hae
    · rw [alistGet_set_ne _ _ _ _ hn] at hge
      have hone := (h2 n e hge hae).1
      have htwo := (h2 nid entry hg hact).1
      rw [hone] at htwo
      injection htwo with hnn
      exact absurd hnn hn
  · intro a ha
    exact Option.noConfusion ha

theorem tryPromoteNode_none {s : PoolState} {nid : String}
    (hg : alistGet s.nodes nid = none) : tryPromoteNode s nid = (s, []) := by
  unfold tryPromoteNode
  rw [hg]

theorem tryPromoteNode_some {s : PoolState} {nid : String} {entry : NodeEntry}
    (hg : alistGet s.nodes nid = some entry) :
    tryPromoteNode s nid =
      (if entry.bleConnected = false then (s, [])
       else
         match s.activeNodeId with
         | none =>
           ({ s with nodes := alistSet s.nodes nid { entry with isActive := true },
                     activeNodeId := some nid,
                     handoffInProgress := false,
                     handoffTimerArmed := false },
            (if s.handoffTimerArmed then [Output.cancelHandoffRetryTimer] else []) ++
              [Output.emitEvent (PoolEvent.activeChanged nid)])
         | some act =>
           if act = nid then (s, [])
           else (s, [Output.sendTo nid OutMsg.disconnectBle])) := by
  unfold tryPromoteNode
  rw [hg]

theorem tryPromoteNode_inv (s : PoolState) (nid : String) (h : PoolInv s) :
    PoolInv (tryPromoteNode s nid).1 := by
  cases hg : alistGet s.nodes nid with
  | none =>
    rw [tryPromoteNode_none hg]
    exact h
  | some entry =>
    rw [tryPromoteNode_some hg]
    by_cases hb : entry.bleConnected = false
    · rw [if_pos hb]
      exact h
    · rw [if_neg hb]
      have hbt : entry.bleConnected = true := bool_true_of_not_false hb
      cases hA : s.activeNodeId with
      | some act =>
        show PoolInv (if act = nid then (s, ([] : List Output))
                      else (s, [Output.sendTo nid OutMsg.disconnectBle])).1
        by_cases hacts : act = nid
        · rw [if_pos hacts]
          exact h
        · rw [if_neg hacts]
          exact h
      | none =>
        obtain ⟨h1, h2, h3⟩ := h
        refine ⟨alistKeysNodup_set _ _ _ h1, ?_, ?_⟩
        · intro n e hge hact
          by_cases hn : n = nid
          · subst hn
            refine ⟨rfl, ?_⟩
            rw [alistGet_set_self] at hge
            injection hge with he
            rw [← he]
            exact hbt
          · rw [alistGet_set_ne _ _ _ _ hn] at hge
            have := (h2 n e hge hact).1
            rw [hA] at this
            exact Option.noConfusion this
        · intro a ha
          injection ha with haa
          subst haa
          exact ⟨{ entry with isActive := true }, alistGet_set_self _ _ _, rfl⟩

theorem removeNodeOp_none {cfg : PoolConfig} {s : PoolState} {nid : String}
    (hg : alistGet s.nodes nid = none) : removeNodeOp cfg s nid = (s, []) := by
  unfold removeNodeOp
  rw [hg]

theorem removeNodeOp_some {cfg : PoolConfig} {s : PoolState} {nid : String} {entry : NodeEntry}
    (hg : alistGet s.nodes nid = some entry) :
    removeNodeOp cfg s nid =
      (if entry.isActive then
        ((triggerHandoff cfg
            { s with nodes := alistDelete s.nodes nid, activeNodeId := none }).1,
         [Output.cancelPingInterval nid, Output.closeNodeSocket nid] ++
           (triggerHandoff cfg
             { s with nodes := alistDelete s.nodes nid, activeNodeId := none }).2 ++
           [Output.emitEvent (PoolEvent.nodeDisconnected nid)])
      else
        ({ s with nodes := alistDelete s.nodes nid },
         [Output.cancelPingInterval nid, Output.closeNodeSocket nid] ++
           [Output.emitEvent (PoolEvent.nodeDisconnected nid)])) := by
  unfold removeNodeOp
  rw [hg]

theorem removeNodeOp_inv (cfg : PoolConfig) (s : PoolState) (nid : String) (h : PoolInv s) :
    PoolInv (removeNodeOp cfg s nid).1 := by
  cases hg : alistGet s.nodes nid with
  | none =>
    rw [removeNodeOp_none hg]
    exact h
  | some entry =>
    rw [removeNodeOp_some hg]
    obtain ⟨h1, h2, h3⟩ := h
    by_cases hia : entry.isActive = true
    · rw [if_pos hia]
      refine triggerHandoff_inv cfg _ ?_
      refine ⟨alistKeysNodup_delete _ _ h1, ?_, ?_⟩
      · intro n e hge hact
        by_cases hn : n = nid
        · subst hn
          rw [alistGet_delete_self _ _ h1] at hge
          exact Option.noConfusion hge
        · rw [alistGet_delete_ne _ _ _ hn] at hge
          have hone := (h2 n e hge hact).1
          have htwo := (h2 nid entry hg hia).1
          rw [hone] at htwo
          injection htwo with hnn
          exact absurd hnn hn
      · intro a ha
        exact Option.noConfusion ha
    · rw [if_neg hia]
      have hif : entry.isActive = false := by
        cases hx : entry.isActive
        · rfl
        · exact absurd hx hia
      refine ⟨alistKeysNodup_delete _ _ h1, ?_, ?_⟩
      · intro n e hge hact
        by_cases hn : n = nid
        · subst hn
          rw [alistGet_delete_self _ _ h1] at hge
          exact Option.noConfusion hge
        · rw [alistGet_delete_ne _ _ _ hn] at hge
          exact h2 n e hge hact
      · intro a ha
        obtain ⟨e, hge, hact⟩ := h3 a ha
        by_cases hn : a = nid
        · subst hn
          rw [hg] at hge
          injection hge with he
          rw [← he, hif] at hact
          exact Bool.noConfusion hact
        · exact ⟨e, by rw [alistGet_delete_ne _ _ _ hn]; exact hge, hact⟩

theorem removeNodeOp_get_self (cfg : PoolConfig) (s : PoolState) (nid : String)
    (h1 : alistKeysNodup s.nodes) :
    alistGet (removeNodeOp cfg s nid).1.nodes nid = none := by
  cases hg : alistGet s.nodes nid with
  | none =>
    rw [removeNodeOp_none hg]
    exact hg
  | some entry =>
    rw [removeNodeOp_some hg]
    by_cases hia : entry.isActive = true
    · rw [if_pos hia]
      show alistGet (triggerHandoff cfg
          { s with nodes := alistDelete s.nodes nid, activeNodeId := none }).1.nodes nid = none
      rw [(triggerHandoff_fields cfg _).1]
      exact alistGet_delete_self _ _ h1
    · rw [if_neg hia]
      exact alistGet_delete_self _ _ h1

/-- Appending a fresh (inactive, disconnected) entry for an id not in the
pool preserves the invariant. -/
theorem PoolInv_add_fresh (t : PoolState) (nid : String) (h : PoolInv t)
    (hg : alistGet t.nodes nid = none) :
    PoolInv { t with nodes := alistSet t.nodes nid freshEntry } := by
  obtain ⟨h1, h2, h3⟩ := h
  refine ⟨alistKeysNodup_set _ _ _ h1, ?_, ?_⟩
  · intro n e hge hact
    by_cases hn : n = nid
    · subst hn
      rw [alistGet_set_self] at hge
      injection hge with he
      rw [← he] at hact
      exact Bool.noConfusion hact
    · rw [alistGet_set_ne _ _ _ _ hn] at hge
      exact h2 n e hge hact
  · intro a ha
    obtain ⟨e, hge, hact⟩ := h3 a ha
    by_cases hn : a = nid
    · subst hn
      rw [hg] at hge
      exact Option.noConfusion hge
    · exact ⟨e, by rw [alistGet_set_ne _ _ _ _ hn]; exact hge, hact⟩

theorem addNodeOp_inv (cfg : PoolConfig) (s : PoolState) (nid : String) (h : PoolInv s) :
    PoolInv (addNodeOp cfg s nid).1 := by
  simp only [addNodeOp]
  by_cases hh : alistHas s.nodes nid = true
  · rw [if_pos hh]
    exact PoolInv_add_fresh _ nid (removeNodeOp_inv cfg s nid h)
      (removeNodeOp_get_self cfg s nid h.1)
  · rw [if_neg hh]
    refine PoolInv_add_fresh s nid h ?_
    unfold alistHas at hh
    cases hx : alistGet s.nodes nid with
    | none => rfl
    | some e =>
      rw [hx] at hh
      exact absurd rfl hh

theorem handleNodeMessage_none {cfg : PoolConfig} {s : PoolState} {nid : String}
    {msg : NodeMsg} (hg : alistGet s.nodes nid = none) :
    handleNodeMessage cfg s nid msg = (s, []) := by
  unfold handleNodeMessage
  rw [hg]

/-- The entry as updated by the status handler (node-pool.js lines
166-168): the BLE flag is overwritten and the battery only when present. -/
def statusEntry (entry : NodeEntry) (ble : Bool) (batt : Option Int) : NodeEntry :=
  { entry with
    bleConnected := ble,
    lastBattery := (match batt with
                    | some b => some b
                    | none => entry.lastBattery) }

theorem handleNodeMessage_status {cfg : PoolConfig} {s : PoolState} {nid : String}
    {entry : NodeEntry} {ble : Bool} {batt : Option Int}
    (hg : alistGet s.nodes nid = some entry) :
    handleNodeMessage cfg s nid (NodeMsg.status ble batt) =
      (if !entry.bleConnected && ble then
         tryPromoteNode
           { s with nodes := alistSet s.nodes nid (statusEntry entry ble batt) } nid
       else if entry.bleConnected && !ble && (statusEntry entry ble batt).isActive then
         triggerHandoff cfg
           { s with
             nodes := alistSet s.nodes nid { statusEntry entry ble batt with isActive := false },
             activeNodeId := none }
       else
         ({ s with nodes := alistSet s.nodes nid (statusEntry entry ble batt) }, [])) := by
  unfold handleNodeMessage statusEntry
  rw [hg]

theorem handleNodeMessage_scanResult {cfg : PoolConfig} {s : PoolState} {nid : String}
    {entry : NodeEntry} {devices : List Device}
    (hg : alistGet s.nodes nid = some entry) :
    handleNodeMessage cfg s nid (NodeMsg.scanResult devices) =
      (match s.pendingScanResults with
       | some m => ({ s with pendingScanResults := some (alistSet m nid devices) }, [])
       | none => (s, [])) := by
  unfold handleNodeMessage
  rw [hg]

theorem handleNodeMessage_battery {cfg : PoolConfig} {s : PoolState} {nid : String}
    {entry : NodeEntry} {level : Int}
    (hg : alistGet s.nodes nid = some entry) :
    handleNodeMessage cfg s nid (NodeMsg.battery level) =
      ({ s with nodes := alistSet s.nodes nid { entry with lastBattery := some level } },
       if entry.isActive then [Output.emitEvent (PoolEvent.battery level)] else []) := by
  unfold handleNodeMessage
  rw [hg]

theorem handleNodeMessage_rssi {cfg : PoolConfig} {s : PoolState} {nid : String}
    {entry : NodeEntry} {value : Int}
    (hg : alistGet s.nodes nid = some entry) :
    handleNodeMessage cfg s nid (NodeMsg.rssi value) =
      (s, if entry.isActive then [Output.emitEvent (PoolEvent.rssi value)] else []) := by
  unfold handleNodeMessage
  rw [hg]

theorem handleNodeMessage_commandResult {cfg : PoolConfig} {s : PoolState} {nid : String}
    {entry : NodeEntry} {id : Nat} {success : Bool}
    (hg : alistGet s.nodes nid = some entry) :
    handleNodeMessage cfg s nid (NodeMsg.commandResult id success) =
      (if id ∈ s.pendingCommands then
        ({ s with pendingCommands := s.pendingCommands.erase id },
         [Output.cancelCommandTimer id, Output.resolveCommand id success])
      else (s, [])) := by
  unfold handleNodeMessage
  rw [hg]

theorem handleNodeMessage_inv (cfg : PoolConfig) (s : PoolState) (nid : String)
    (msg : NodeMsg) (h : PoolInv s) :
    PoolInv (handleNodeMessage cfg s nid msg).1 := by
  cases hg : alistGet s.nodes nid with
  | none =>
    rw [handleNodeMessage_none hg]
    exact h
  | some entry =>
    cases msg with
    | status ble batt =>
      rw [handleNodeMessage_status hg]
      by_cases hc1 : (!entry.bleConnected && ble) = true
      · rw [if_pos hc1]
        refine tryPromoteNode_inv _ nid ?_
        refine PoolInv_set_entry s nid hg rfl ?_ h
        intro hact
        show ble = true
        cases hble : ble
        · rw [hble, Bool.and_false] at hc1
          exact Bool.noConfusion hc1
        · rfl
      · rw [if_neg hc1]
        by_cases hc2 : (entry.bleConnected && !ble && (statusEntry entry ble batt).isActive) = true
        · rw [if_pos hc2]
          refine triggerHandoff_inv cfg _ ?_
          have hact : entry.isActive = true := ((Bool.and_eq_true _ _).mp hc2).2
          exact PoolInv_demote s nid hg hact rfl h
        · rw [if_neg hc2]
          refine PoolInv_set_entry s nid hg rfl ?_ h
          intro hact
          show ble = true
          have hbc : entry.bleConnected = true := (h.2.1 nid entry hg hact).2
          cases hble : ble
          · exfalso
            apply hc2
            rw [hbc, hble]
            show (true && !false && entry.isActive) = true
            rw [hact]
            rfl
          · rfl
    | scanResult devices =>
      rw [handleNodeMessage_scanResult hg]
      cases hp : s.pendingScanResults with
      | none => exact h
      | some m => exact PoolInv_congr rfl rfl h
    | battery level =>
      rw [handleNodeMessage_battery hg]
      exact PoolInv_set_entry s nid hg rfl (fun hact => (h.2.1 nid entry hg hact).2) h
    | rssi value =>
      rw [handleNodeMessage_rssi hg]
      exact h
    | commandResult id success =>
      rw [handleNodeMessage_commandResult hg]
      by_cases hp : id ∈ s.pendingCommands
      · rw [if_pos hp]
        exact PoolInv_congr rfl rfl h
      · rw [if_neg hp]
        exact h

theorem electNode_fields (s : PoolState) :
    (electNode s).1.nodes = s.nodes ∧ (electNode s).1.activeNodeId = s.activeNodeId ∧
    (electNode s).1.commandCounter = s.commandCounter ∧
    (electNode s).1.pendingCommands = s.pendingCommands := by
  cases hp : s.pendingScanResults with
  | none =>
    have heq : electNode s = (s, []) := by
      unfold electNode
      rw [hp]
    rw [heq]
    exact ⟨rfl, rfl, rfl, rfl⟩
  | some m =>
    rw [electNode_eq s m hp]
    exact ⟨rfl, rfl, rfl, rfl⟩

theorem handoffRetryFire_inv (cfg : PoolConfig) (s : PoolState) (h : PoolInv s) :
    PoolInv (handoffRetryFire cfg s).1 := by
  simp only [handoffRetryFire]
  split_ifs with h1 h2
  · exact h
  · exact triggerHandoff_inv cfg _ (PoolInv_congr rfl rfl h)
  · exact PoolInv_congr rfl rfl h

theorem sendCommandOp_fields (s : PoolState) (d : String) :
    (sendCommandOp s d).1.nodes = s.nodes ∧
    (sendCommandOp s d).1.activeNodeId = s.activeNodeId := by
  unfold sendCommandOp
  cases getActiveNode s with
  | none => exact ⟨rfl, rfl⟩
  | some p =>
    cases p with
    | mk a b => exact ⟨rfl, rfl⟩

theorem commandTimeoutFire_fields (s : PoolState) (id : Nat) :
    (commandTimeoutFire s id).1.nodes = s.nodes ∧
    (commandTimeoutFire s id).1.activeNodeId = s.activeNodeId := by
  unfold commandTimeoutFire
  split_ifs
  · exact ⟨rfl, rfl⟩
  · exact ⟨rfl, rfl⟩

theorem tickNode_inv (cfg : PoolConfig) (s : PoolState) (nid : String) (h : PoolInv s) :
    PoolInv (tickNode cfg s nid).1 := by
  cases hg : alistGet s.nodes nid with
  | none =>
    have heq : tickNode cfg s nid = (s, []) := by
      unfold tickNode
      rw [hg]
    rw [heq]
    exact h
  | some entry =>
    have heq : tickNode cfg s nid =
        (if entry.pongReceived = false then removeNodeOp cfg s nid
         else ({ s with nodes := alistSet s.nodes nid { entry with pongReceived := false } },
               [Output.pingNode nid])) := by
      unfold tickNode
      rw [hg]
    rw [heq]
    split_ifs with hp
    · exact removeNodeOp_inv cfg s nid h
    · exact PoolInv_set_entry s nid hg rfl (fun hact => (h.2.1 nid entry hg hact).2) h

theorem pongNode_inv (s : PoolState) (nid : String) (h : PoolInv s) :
    PoolInv (pongNode s nid).1 := by
  cases hg : alistGet s.nodes nid with
  | none =>
    have heq : pongNode s nid = (s, []) := by
      unfold pongNode
      rw [hg]
    rw [heq]
    exact h
  | some entry =>
    have heq : pongNode s nid =
        ({ s with nodes := alistSet s.nodes nid { entry with pongReceived := true } }, []) := by
      unfold pongNode
      rw [hg]
    rw [heq]
    exact PoolInv_set_entry s nid hg rfl (fun hact => (h.2.1 nid entry hg hact).2) h

theorem poolStep_inv (cfg : PoolConfig) (s : PoolState) (e : Event) (h : PoolInv s) :
    PoolInv (poolStep cfg s e).1 := by
  cases e with
  | addNode n => exact addNodeOp_inv cfg s n h
  | removeNode n => exact removeNodeOp_inv cfg s n h
  | nodeMsg n m => exact handleNodeMessage_inv cfg s n m h
  | elect => exact PoolInv_congr (electNode_fields s).1 (electNode_fields s).2.1 h
  | handoffRetry => exact handoffRetryFire_inv cfg s h
  | sendCmd d =>
    exact PoolInv_congr (sendCommandOp_fields s d).1 (sendCommandOp_fields s d).2 h
  | cmdTimeout id =>
    exact PoolInv_congr (commandTimeoutFire_fields s id).1 (commandTimeoutFire_fields s id).2 h
  | tick n => exact tickNode_inv cfg s n h
  | pong n => exact pongNode_inv s n h

theorem poolInv_init : PoolInv initPool := by
  refine ⟨List.nodup_nil, ?_, ?_⟩
  · intro nid e hge hact
    exact Option.noConfusion hge
  · intro a ha
    exact Option.noConfusion ha

theorem poolInv_reachable (cfg : PoolConfig) (s : PoolState) (h : Reachable cfg s) :
    PoolInv s := by
  induction h with
  | init => exact poolInv_init
  | next e hprev ih => exact poolStep_inv cfg _ e ih

/-- C1 (confirmed). In every pool state reachable from a fresh pool by
any sequence of pool operations — which includes the claim's alphabet of
addNode, removeNode and the five inbound message dispatches, as well as
all timer firings and command submissions — at most one entry has
`isActive = true`, `activeNodeId` is either null or names exactly that
active entry (in both directions), and the active entry's `bleConnected`
is true (node-pool.js `_tryPromoteNode` lines 225-249 and
`_handleNodeMessage` lines 158-218). -/
theorem C1_single_active (cfg : PoolConfig) (s : PoolState) (h : Reachable cfg s) :
    (∀ n1 n2 e1 e2, alistGet s.nodes n1 = some e1 → alistGet s.nodes n2 = some e2 →
       e1.isActive = true → e2.isActive = true → n1 = n2) ∧
    (∀ a, s.activeNodeId = some a →
       ∃ e, alistGet s.nodes a = some e ∧ e.isActive = true ∧ e.bleConnected = true) ∧
    (∀ n e, alistGet s.nodes n = some e → e.isActive = true → s.activeNodeId = some n) := by
  obtain ⟨h1, h2, h3⟩ := poolInv_reachable cfg s h
  refine ⟨?_, ?_, ?_⟩
  · intro n1 n2 e1 e2 hg1 hg2 ha1 ha2
    have hx := (h2 n1 e1 hg1 ha1).1
    have hy := (h2 n2 e2 hg2 ha2).1
    rw [hx] at hy
    exact Option.some.inj hy
  · intro a ha
    obtain ⟨e, hge, hact⟩ := h3 a ha
    exact ⟨e, hge, hact, (h2 a e hge hact).2⟩
  · intro n e hge hact
    exact (h2 n e hge hact).1

/-- The pool after registering node A and receiving its
status{bleConnected:true} (node A becomes active): a two-step reachable
state used as the C1 witness. -/
def c1WitnessState : PoolState :=
  (poolStep defaultPoolConfig
    (poolStep defaultPoolConfig initPool (Event.addNode "A")).1
    (Event.nodeMsg "A" (NodeMsg.status true none))).1

/-- Witness for C1 at the concrete reachable state `c1WitnessState`. -/
theorem C1_single_active_witness :
    (∀ n1 n2 e1 e2, alistGet c1WitnessState.nodes n1 = some e1 →
       alistGet c1WitnessState.nodes n2 = some e2 →
       e1.isActive = true → e2.isActive = true → n1 = n2) ∧
    (∀ a, c1WitnessState.activeNodeId = some a →
       ∃ e, alistGet c1WitnessState.nodes a = some e ∧ e.isActive = true ∧
         e.bleConnected = true) ∧
    (∀ n e, alistGet c1WitnessState.nodes n = some e → e.isActive = true →
       c1WitnessState.activeNodeId = some n) :=
  C1_single_active defaultPoolConfig c1WitnessState
    (Reachable.next (Event.nodeMsg "A" (NodeMsg.status true none))
      (Reachable.next (Event.addNode "A") Reachable.init))

/-! ## Claim C7: scan results arriving after the handoff went idle -/

/-- Five events: register A and B; A gains BLE (promoted); A loses BLE
(demoted, handoff scan broadcast to both); B gains BLE (promoted, so the
handoff returns to idle mid-scan-window). -/
def c7Trace : List Event :=
  [Event.addNode "A", Event.addNode "B",
   Event.nodeMsg "A" (NodeMsg.status true none),
   Event.nodeMsg "A" (NodeMsg.status false none),
   Event.nodeMsg "B" (NodeMsg.status true none)]

def c7State : PoolState := (runTrace defaultPoolConfig initPool c7Trace).1

/-- The state after a late scan_result from A arrives. -/
def c7StateLate : PoolState :=
  (poolStep defaultPoolConfig c7State
    (Event.nodeMsg "A" (NodeMsg.scanResult [⟨some (-50)⟩]))).1

/-- C7 counterexample (closed). After node B is promoted mid-scan-window
the handoff is idle (`_handoffInProgress = false`, the code's rendering of
`handoffState = idle`) and B is active — yet `_pendingScanResults` has not
been cleared (node-pool.js `_tryPromoteNode` lines 230-240 clears only the
in-progress flag and the retry timer), so the late scan_result from A IS
recorded, and the still-scheduled election then sends `connect` to node A
even though B is active. This refutes the claim that such a scan_result
is discarded and cannot cause a later election to send connect. -/
theorem C7_counterexample :
    c7State.handoffInProgress = false ∧
    c7State.activeNodeId = some "B" ∧
    c7State.pendingScanResults = some [] ∧
    c7StateLate.pendingScanResults = some [("A", [⟨some (-50)⟩])] ∧
    (poolStep defaultPoolConfig c7StateLate Event.elect).2 =
      [Output.sendTo "A" OutMsg.connect] ∧
    (poolStep defaultPoolConfig c7StateLate Event.elect).1.activeNodeId = some "B" := by
  refine ⟨by decide, by decide, by decide, by decide, by decide, by decide⟩

/-- C7 amended (proved). A scan_result is recorded iff
`pendingScanResults` is non-null; once it is null (before any handoff, or
after the election has consumed it) an arriving scan_result is discarded
with no state change and no output, and an election fired in that
situation changes nothing and sends nothing (node-pool.js lines 186-191
and 296-297). Promotion alone does not restore the discarding state: that
is the counterexample above. -/
theorem C7_amended_discard (cfg : PoolConfig) (s : PoolState)
    (h : s.pendingScanResults = none) :
    (∀ nid devices,
       poolStep cfg s (Event.nodeMsg nid (NodeMsg.scanResult devices)) = (s, [])) ∧
    poolStep cfg s Event.elect = (s, []) := by
  constructor
  · intro nid devices
    show handleNodeMessage cfg s nid (NodeMsg.scanResult devices) = (s, [])
    cases hg : alistGet s.nodes nid with
    | none => exact handleNodeMessage_none hg
    | some entry =>
      rw [handleNodeMessage_scanResult hg, h]
  · show electNode s = (s, [])
    unfold electNode
    rw [h]

/-- Witness for C7's amended claim at the concrete post-election state. -/
theorem C7_amended_discard_witness :
    poolStep defaultPoolConfig (poolStep defaultPoolConfig c7StateLate Event.elect).1
        (Event.nodeMsg "B" (NodeMsg.scanResult [⟨some (-40)⟩])) =
      ((poolStep defaultPoolConfig c7StateLate Event.elect).1, []) ∧
    poolStep defaultPoolConfig (poolStep defaultPoolConfig c7StateLate Event.elect).1
        Event.elect =
      ((poolStep defaultPoolConfig c7StateLate Event.elect).1, []) := by
  have h := C7_amended_discard defaultPoolConfig
      (poolStep defaultPoolConfig c7StateLate Event.elect).1 (by decide)
  exact ⟨h.1 "B" [⟨some (-40)⟩], h.2⟩

/-! ## Claim C8: stale-node removal -/

/-- C8 counterexample (closed). A node is registered and never responds;
no ping tick ever fires (ticks suppressed). The embedding is event-driven
— the pool state changes only at events, exactly as in the source, where
removal happens only inside callbacks — so this final state is the pool's
state at every later instant: node A is still in the pool with the
default staleTimeout of 60 s long elapsed. The configured staleTimeout is
stored (node-pool.js line 40) but never read by any handler, so no
absolute upper bound holds when ticks are suppressed. -/
theorem C8_counterexample :
    alistGet (runTrace defaultPoolConfig initPool [Event.addNode "A"]).1.nodes "A"
      = some freshEntry ∧
    defaultPoolConfig.staleTimeout = 60000 := by
  exact ⟨by decide, rfl⟩

theorem alistGet_set_isSome {V : Type} (m : List (String × V)) (k : String) (v : V)
    (n : String) (h : (alistGet m n).isSome = true) :
    (alistGet (alistSet m k v) n).isSome = true := by
  by_cases hn : n = k
  · subst hn
    rw [alistGet_set_self]
    rfl
  · rw [alistGet_set_ne _ _ _ _ hn]
    exact h

theorem tryPromoteNode_presence (s : PoolState) (nid n : String)
    (h : (alistGet s.nodes n).isSome = true) :
    (alistGet (tryPromoteNode s nid).1.nodes n).isSome = true := by
  cases hg : alistGet s.nodes nid with
  | none =>
    rw [tryPromoteNode_none hg]
    exact h
  | some entry =>
    rw [tryPromoteNode_some hg]
    by_cases hb : entry.bleConnected = false
    · rw [if_pos hb]
      exact h
    · rw [if_neg hb]
      cases hA : s.activeNodeId with
      | some act =>
        show (alistGet (if act = nid then (s, ([] : List Output))
              else (s, [Output.sendTo nid OutMsg.disconnectBle])).1.nodes n).isSome = true
        split_ifs
        · exact h
        · exact h
      | none =>
        exact alistGet_set_isSome _ _ _ _ h

theorem removeNodeOp_get_other (cfg : PoolConfig) (s : PoolState) (nid n : String)
    (hn : ¬n = nid) :
    alistGet (removeNodeOp cfg s nid).1.nodes n = alistGet s.nodes n := by
  cases hg : alistGet s.nodes nid with
  | none =>
    rw [removeNodeOp_none hg]
  | some entry =>
    rw [removeNodeOp_some hg]
    by_cases hia : entry.isActive = true
    · rw [if_pos hia]
      show alistGet (triggerHandoff cfg
          { s with nodes := alistDelete s.nodes nid, activeNodeId := none }).1.nodes n =
        alistGet s.nodes n
      rw [(triggerHandoff_fields cfg _).1]
      exact alistGet_delete_ne _ _ _ hn
    · rw [if_neg hia]
      exact alistGet_delete_ne _ _ _ hn

theorem handleNodeMessage_presence (cfg : PoolConfig) (s : PoolState) (m n : String)
    (msg : NodeMsg) (h : (alistGet s.nodes n).isSome = true) :
    (alistGet (handleNodeMessage cfg s m msg).1.nodes n).isSome = true := by
  cases hg : alistGet s.nodes m with
  | none =>
    rw [handleNodeMessage_none hg]
    exact h
  | some entry =>
    cases msg with
    | status ble batt =>
      rw [handleNodeMessage_status hg]
      by_cases hc1 : (!entry.bleConnected && ble) = true
      · rw [if_pos hc1]
        exact tryPromoteNode_presence _ m n (alistGet_set_isSome _ _ _ _ h)
      · rw [if_neg hc1]
        by_cases hc2 : (entry.bleConnected && !ble && (statusEntry entry ble batt).isActive)
            = true
        · rw [if_pos hc2]
          show (alistGet (triggerHandoff cfg _).1.nodes n).isSome = true
          rw [(triggerHandoff_fields cfg _).1]
          exact alistGet_set_isSome _ _ _ _ h
        · rw [if_neg hc2]
          exact alistGet_set_isSome _ _ _ _ h
    | scanResult devices =>
      rw [handleNodeMessage_scanResult hg]
      cases s.pendingScanResults with
      | none => exact h
      | some m2 => exact h
    | battery level =>
      rw [handleNodeMessage_battery hg]
      exact alistGet_set_isSome _ _ _ _ h
    | rssi value =>
      rw [handleNodeMessage_rssi hg]
      exact h
    | commandResult id success =>
      rw [handleNodeMessage_commandResult hg]
      split_ifs
      · exact h
      · exact h

/-- Every event other than a tick for `n`, an explicit `removeNode n`, or
a re-registering `addNode n` leaves node `n` present in the pool. -/
theorem poolStep_presence (cfg : PoolConfig) (s : PoolState) (n : String) (e : Event)
    (h : (alistGet s.nodes n).isSome = true)
    (h1 : e ≠ Event.tick n) (h2 : e ≠ Event.removeNode n) (h3 : e ≠ Event.addNode n) :
    (alistGet (poolStep cfg s e).1.nodes n).isSome = true := by
  cases e with
  | addNode m =>
    have hm : ¬n = m := fun hh => h3 (by rw [hh])
    show (alistGet (addNodeOp cfg s m).1.nodes n).isSome = true
    simp only [addNodeOp]
    by_cases hh : alistHas s.nodes m = true
    · rw [if_pos hh]
      refine alistGet_set_isSome _ _ _ _ ?_
      rw [removeNodeOp_get_other cfg s m n hm]
      exact h
    · rw [if_neg hh]
      refine alistGet_set_isSome _ _ _ _ ?_
      exact h
  | removeNode m =>
    have hm : ¬n = m := fun hh => h2 (by rw [hh])
    show (alistGet (removeNodeOp cfg s m).1.nodes n).isSome = true
    rw [removeNodeOp_get_other cfg s m n hm]
    exact h
  | nodeMsg m msg => exact handleNodeMessage_presence cfg s m n msg h
  | elect =>
    show (alistGet (electNode s).1.nodes n).isSome = true
    rw [(electNode_fields s).1]
    exact h
  | handoffRetry =>
    show (alistGet (handoffRetryFire cfg s).1.nodes n).isSome = true
    simp only [handoffRetryFire]
    split_ifs
    · exact h
    · rw [(triggerHandoff_fields cfg _).1]
      exact h
    · exact h
  | sendCmd d =>
    show (alistGet (sendCommandOp s d).1.nodes n).isSome = true
    rw [(sendCommandOp_fields s d).1]
    exact h
  | cmdTimeout id =>
    show (alistGet (commandTimeoutFire s id).1.nodes n).isSome = true
    rw [(commandTimeoutFire_fields s id).1]
    exact h
  | tick m =>
    have hm : ¬n = m := fun hh => h1 (by rw [hh])
    show (alistGet (tickNode cfg s m).1.nodes n).isSome = true
    cases hg : alistGet s.nodes m with
    | none =>
      have heq : tickNode cfg s m = (s, []) := by
        unfold tickNode
        rw [hg]
      rw [heq]
      exact h
    | some entry =>
      have heq : tickNode cfg s m =
          (if entry.pongReceived = false then removeNodeOp cfg s m
           else ({ s with nodes := alistSet s.nodes m { entry with pongReceived := false } },
                 [Output.pingNode m])) := by
        unfold tickNode
        rw [hg]
      rw [heq]
      split_ifs
      · rw [removeNodeOp_get_other cfg s m n hm]
        exact h
      · exact alistGet_set_isSome _ _ _ _ h
  | pong m =>
    show (alistGet (pongNode s m).1.nodes n).isSome = true
    cases hg : alistGet s.nodes m with
    | none =>
      have heq : pongNode s m = (s, []) := by
        unfold pongNode
        rw [hg]
      rw [heq]
      exact h
    | some entry =>
      have heq : pongNode s m =
          ({ s with nodes := alistSet s.nodes m { entry with pongReceived := true } }, []) := by
        unfold pongNode
        rw [hg]
      rw [heq]
      exact alistGet_set_isSome _ _ _ _ h

/-- C8 amended (proved). Stale-node removal is driven solely by the
per-node ping interval: (1) the configured `staleTimeout` is never
consulted — two pools differing only in it behave identically;
(2) a tick that finds the pong flag still cleared removes the node;
(3) a tick that finds the flag set merely clears it and pings, so a
silent node is removed at the second consecutive tick after its last
pong — about 2·pingInterval (60 s at the 30 s default) when ticks fire on
schedule; (4) no event other than a tick for the node (or an explicit
removal / re-registration) ever removes it, so no absolute time bound
holds if ticks are suppressed (node-pool.js lines 38-43, 81-98). -/
theorem C8_amended_stale_mechanism :
    (∀ p t1 t2 sd ht : Nat, ∀ s : PoolState, ∀ e : Event,
       poolStep ⟨p, t1, sd, ht⟩ s e = poolStep ⟨p, t2, sd, ht⟩ s e) ∧
    (∀ cfg : PoolConfig, ∀ s : PoolState, ∀ n : String, ∀ entry : NodeEntry,
       alistKeysNodup s.nodes →
       alistGet s.nodes n = some entry → entry.pongReceived = false →
       alistGet (poolStep cfg s (Event.tick n)).1.nodes n = none) ∧
    (∀ cfg : PoolConfig, ∀ s : PoolState, ∀ n : String, ∀ entry : NodeEntry,
       alistGet s.nodes n = some entry → entry.pongReceived = true →
       (poolStep cfg s (Event.tick n)).1.nodes
         = alistSet s.nodes n { entry with pongReceived := false }) ∧
    (∀ cfg : PoolConfig, ∀ s : PoolState, ∀ n : String, ∀ e : Event,
       (alistGet s.nodes n).isSome = true →
       e ≠ Event.tick n → e ≠ Event.removeNode n → e ≠ Event.addNode n →
       (alistGet (poolStep cfg s e).1.nodes n).isSome = true) := by
  refine ⟨fun p t1 t2 sd ht s e => rfl, ?_, ?_, poolStep_presence⟩
  · intro cfg s n entry hnd hg hp
    show alistGet (tickNode cfg s n).1.nodes n = none
    have heq : tickNode cfg s n =
        (if entry.pongReceived = false then removeNodeOp cfg s n
         else ({ s with nodes := alistSet s.nodes n { entry with pongReceived := false } },
               [Output.pingNode n])) := by
      unfold tickNode
      rw [hg]
    rw [heq, if_pos hp]
    exact removeNodeOp_get_self cfg s n hnd
  · intro cfg s n entry hg hp
    show (tickNode cfg s n).1.nodes = alistSet s.nodes n { entry with pongReceived := false }
    have heq : tickNode cfg s n =
        (if entry.pongReceived = false then removeNodeOp cfg s n
         else ({ s with nodes := alistSet s.nodes n { entry with pongReceived := false } },
               [Output.pingNode n])) := by
      unfold tickNode
      rw [hg]
    rw [heq, if_neg (by rw [hp]; exact Bool.noConfusion)]

/-- Witness for C8's amended theorem at concrete inputs: after a first
unanswered tick, node A's flag is cleared; after a second it is removed;
a pong event never removes it. -/
theorem C8_amended_stale_mechanism_witness :
    (poolStep defaultPoolConfig
        (runTrace defaultPoolConfig initPool [Event.addNode "A"]).1
        (Event.tick "A")).1.nodes
      = alistSet (runTrace defaultPoolConfig initPool [Event.addNode "A"]).1.nodes "A"
          { freshEntry with pongReceived := false } ∧
    alistGet (poolStep defaultPoolConfig
        (runTrace defaultPoolConfig initPool [Event.addNode "A", Event.tick "A"]).1
        (Event.tick "A")).1.nodes "A" = none ∧
    (alistGet (poolStep defaultPoolConfig
        (runTrace defaultPoolConfig initPool [Event.addNode "A"]).1
        (Event.pong "A")).1.nodes "A").isSome = true := by
  have h := C8_amended_stale_mechanism
  refine ⟨?_, ?_, ?_⟩
  · exact h.2.2.1 defaultPoolConfig _ "A" freshEntry (by decide) rfl
  · exact h.2.1 defaultPoolConfig _ "A" { freshEntry with pongReceived := false }
      (by unfold alistKeysNodup; decide) (by decide) rfl
  · exact h.2.2.2 defaultPoolConfig _ "A" (Event.pong "A") (by decide)
      (by decide) (by decide) (by decide)

/-! ## Claim C4: exactly one of resolve / timeout per command id -/

/-- Whether an output resolves the promise of command `id`. -/
def isResolveOf (id : Nat) : Output → Bool
  | Output.resolveCommand i _ => i == id
  | _ => false

/-- How many outputs of a run resolve command `id`. -/
def resCount (outs : List Output) (id : Nat) : Nat :=
  (outs.filter (isResolveOf id)).length

theorem resCount_nil (id : Nat) : resCount [] id = 0 := rfl

theorem resCount_append (a b : List Output) (id : Nat) :
    resCount (a ++ b) id = resCount a id + resCount b id := by
  unfold resCount
  rw [List.filter_append, List.length_append]

theorem resCount_cons (o : Output) (outs : List Output) (id : Nat) :
    resCount (o :: outs) id =
      (if isResolveOf id o then 1 else 0) + resCount outs id := by
  unfold resCount
  rw [List.filter_cons]
  split_ifs with h
  · rw [List.length_cons]
    omega
  · omega

theorem resCount_scan_map (l : List (String × NodeEntry)) (d : Nat) (id : Nat) :
    resCount (l.map (fun p => Output.sendTo p.1 (OutMsg.scan d))) id = 0 := by
  induction l with
  | nil => rfl
  | cons p rest ih =>
    rw [List.map_cons, resCount_cons, ih]
    rfl

theorem triggerHandoff_resCount (cfg : PoolConfig) (s : PoolState) (id : Nat) :
    resCount (triggerHandoff cfg s).2 id = 0 := by
  simp only [triggerHandoff]
  split_ifs
  · rfl
  · rfl
  · rw [resCount_append, resCount_scan_map]
    rfl

theorem tryPromoteNode_not_connected {s : PoolState} {nid : String} {entry : NodeEntry}
    (hg : alistGet s.nodes nid = some entry) (hb : entry.bleConnected = false) :
    tryPromoteNode s nid = (s, []) := by
  rw [tryPromoteNode_some hg, if_pos hb]

theorem tryPromoteNode_already_active {s : PoolState} {nid : String} {entry : NodeEntry}
    {act : String} (hg : alistGet s.nodes nid = some entry)
    (hb : ¬entry.bleConnected = false) (hA : s.activeNodeId = some act) :
    tryPromoteNode s nid =
      (if act = nid then (s, []) else (s, [Output.sendTo nid OutMsg.disconnectBle])) := by
  rw [tryPromoteNode_some hg, if_neg hb, hA]

theorem tryPromoteNode_promote {s : PoolState} {nid : String} {entry : NodeEntry}
    (hg : alistGet s.nodes nid = some entry)
    (hb : ¬entry.bleConnected = false) (hA : s.activeNodeId = none) :
    tryPromoteNode s nid =
      ({ s with nodes := alistSet s.nodes nid { entry with isActive := true },
                activeNodeId := some nid,
                handoffInProgress := false,
                handoffTimerArmed := false },
       (if s.handoffTimerArmed then [Output.cancelHandoffRetryTimer] else []) ++
         [Output.emitEvent (PoolEvent.activeChanged nid)]) := by
  rw [tryPromoteNode_some hg, if_neg hb, hA]

theorem tryPromoteNode_cmdParts (s : PoolState) (nid : String) :
    (tryPromoteNode s nid).1.pendingCommands = s.pendingCommands ∧
    (tryPromoteNode s nid).1.commandCounter = s.commandCounter ∧
    ∀ id, resCount (tryPromoteNode s nid).2 id = 0 := by
  cases hg : alistGet s.nodes nid with
  | none =>
    rw [tryPromoteNode_none hg]
    exact ⟨rfl, rfl, fun id => rfl⟩
  | some entry =>
    by_cases hb : entry.bleConnected = false
    · rw [tryPromoteNode_not_connected hg hb]
      exact ⟨rfl, rfl, fun id => rfl⟩
    · cases hA : s.activeNodeId with
      | some act =>
        rw [tryPromoteNode_already_active hg hb hA]
        split_ifs
        · exact ⟨rfl, rfl, fun id => rfl⟩
        · exact ⟨rfl, rfl, fun id => rfl⟩
      | none =>
        rw [tryPromoteNode_promote hg hb hA]
        refine ⟨rfl, rfl, fun id => ?_⟩
        rw [resCount_append]
        have h1 : resCount (if s.handoffTimerArmed = true
            then [Output.cancelHandoffRetryTimer] else ([] : List Output)) id = 0 := by
          split_ifs
          · rfl
          · rfl
        rw [h1]
        rfl

theorem removeNodeOp_cmdParts (cfg : PoolConfig) (s : PoolState) (nid : String) :
    (removeNodeOp cfg s nid).1.pendingCommands = s.pendingCommands ∧
    (removeNodeOp cfg s nid).1.commandCounter = s.commandCounter ∧
    ∀ id, resCount (removeNodeOp cfg s nid).2 id = 0 := by
  cases hg : alistGet s.nodes nid with
  | none =>
    rw [removeNodeOp_none hg]
    exact ⟨rfl, rfl, fun id => rfl⟩
  | some entry =>
    rw [removeNodeOp_some hg]
    split_ifs
    · refine ⟨(triggerHandoff_fields cfg _).2.2.2, (triggerHandoff_fields cfg _).2.2.1,
        fun id => ?_⟩
      rw [resCount_append, resCount_append, triggerHandoff_resCount]
      rfl
    · exact ⟨rfl, rfl, fun id => rfl⟩

theorem addNodeOp_cmdParts (cfg : PoolConfig) (s : PoolState) (nid : String) :
    (addNodeOp cfg s nid).1.pendingCommands = s.pendingCommands ∧
    (addNodeOp cfg s nid).1.commandCounter = s.commandCounter ∧
    ∀ id, resCount (addNodeOp cfg s nid).2 id = 0 := by
  simp only [addNodeOp]
  split_ifs
  · refine ⟨(removeNodeOp_cmdParts cfg s nid).1, (removeNodeOp_cmdParts cfg s nid).2.1,
      fun id => ?_⟩
    rw [resCount_append, (removeNodeOp_cmdParts cfg s nid).2.2 id]
    rfl
  · exact ⟨rfl, rfl, fun id => by rw [resCount_append]; rfl⟩

theorem handleNodeMessage_status_cmdParts (cfg : PoolConfig) (s : PoolState) (nid : String)
    (ble : Bool) (batt : Option Int) :
    (handleNodeMessage cfg s nid (NodeMsg.status ble batt)).1.pendingCommands
        = s.pendingCommands ∧
    (handleNodeMessage cfg s nid (NodeMsg.status ble batt)).1.commandCounter
        = s.commandCounter ∧
    ∀ id, resCount (handleNodeMessage cfg s nid (NodeMsg.status ble batt)).2 id = 0 := by
  cases hg : alistGet s.nodes nid with
  | none =>
    rw [handleNodeMessage_none hg]
    exact ⟨rfl, rfl, fun id => rfl⟩
  | some entry =>
    rw [handleNodeMessage_status hg]
    split_ifs
    · exact ⟨(tryPromoteNode_cmdParts _ nid).1, (tryPromoteNode_cmdParts _ nid).2.1,
        (tryPromoteNode_cmdParts _ nid).2.2⟩
    · exact ⟨(triggerHandoff_fields cfg _).2.2.2, (triggerHandoff_fields cfg _).2.2.1,
        triggerHandoff_resCount cfg _⟩
    · exact ⟨rfl, rfl, fun id => rfl⟩

theorem handleNodeMessage_cmdNeutral (cfg : PoolConfig) (s : PoolState) (nid : String)
    (msg : NodeMsg) (hmsg : ∀ id succ, msg ≠ NodeMsg.commandResult id succ) :
    (handleNodeMessage cfg s nid msg).1.pendingCommands = s.pendingCommands ∧
    (handleNodeMessage cfg s nid msg).1.commandCounter = s.commandCounter ∧
    ∀ id, resCount (handleNodeMessage cfg s nid msg).2 id = 0 := by
  cases hg : alistGet s.nodes nid with
  | none =>
    rw [handleNodeMessage_none hg]
    exact ⟨rfl, rfl, fun id => rfl⟩
  | some entry =>
    cases msg with
    | status ble batt => exact handleNodeMessage_status_cmdParts cfg s nid ble batt
    | scanResult devices =>
      rw [handleNodeMessage_scanResult hg]
      cases s.pendingScanResults with
      | none => exact ⟨rfl, rfl, fun id => rfl⟩
      | some m => exact ⟨rfl, rfl, fun id => rfl⟩
    | battery level =>
      rw [handleNodeMessage_battery hg]
      refine ⟨rfl, rfl, fun id => ?_⟩
      split_ifs
      · rfl
      · rfl
    | rssi value =>
      rw [handleNodeMessage_rssi hg]
      refine ⟨rfl, rfl, fun id => ?_⟩
      split_ifs
      · rfl
      · rfl
    | commandResult id succ => exact absurd rfl (hmsg id succ)

theorem tickNode_cmdParts (cfg : PoolConfig) (s : PoolState) (nid : String) :
    (tickNode cfg s nid).1.pendingCommands = s.pendingCommands ∧
    (tickNode cfg s nid).1.commandCounter = s.commandCounter ∧
    ∀ id, resCount (tickNode cfg s nid).2 id = 0 := by
  cases hg : alistGet s.nodes nid with
  | none =>
    have heq : tickNode cfg s nid = (s, []) := by
      unfold tickNode
      rw [hg]
    rw [heq]
    exact ⟨rfl, rfl, fun id => rfl⟩
  | some entry =>
    have heq : tickNode cfg s nid =
        (if entry.pongReceived = false then removeNodeOp cfg s nid
         else ({ s with nodes := alistSet s.nodes nid { entry with pongReceived := false } },
               [Output.pingNode nid])) := by
      unfold tickNode
      rw [hg]
    rw [heq]
    split_ifs
    · exact removeNodeOp_cmdParts cfg s nid
    · exact ⟨rfl, rfl, fun id => rfl⟩

theorem pongNode_cmdParts (s : PoolState) (nid : String) :
    (pongNode s nid).1.pendingCommands = s.pendingCommands ∧
    (pongNode s nid).1.commandCounter = s.commandCounter ∧
    ∀ id, resCount (pongNode s nid).2 id = 0 := by
  cases hg : alistGet s.nodes nid with
  | none =>
    have heq : pongNode s nid = (s, []) := by
      unfold pongNode
      rw [hg]
    rw [heq]
    exact ⟨rfl, rfl, fun id => rfl⟩
  | some entry =>
    have heq : pongNode s nid =
        ({ s with nodes := alistSet s.nodes nid { entry with pongReceived := true } }, []) := by
      unfold pongNode
      rw [hg]
    rw [heq]
    exact ⟨rfl, rfl, fun id => rfl⟩

theorem electNode_cmdParts (s : PoolState) :
    (electNode s).1.pendingCommands = s.pendingCommands ∧
    (electNode s).1.commandCounter = s.commandCounter ∧
    ∀ id, resCount (electNode s).2 id = 0 := by
  cases hp : s.pendingScanResults with
  | none =>
    have heq : electNode s = (s, []) := by
      unfold electNode
      rw [hp]
    rw [heq]
    exact ⟨rfl, rfl, fun id => rfl⟩
  | some m =>
    rw [electNode_eq s m hp]
    refine ⟨rfl, rfl, fun id => ?_⟩
    cases firstMax (flatConsidered s.nodes m) with
    | none => rfl
    | some p => rfl

theorem handoffRetryFire_cmdParts (cfg : PoolConfig) (s : PoolState) :
    (handoffRetryFire cfg s).1.pendingCommands = s.pendingCommands ∧
    (handoffRetryFire cfg s).1.commandCounter = s.commandCounter ∧
    ∀ id, resCount (handoffRetryFire cfg s).2 id = 0 := by
  simp only [handoffRetryFire]
  split_ifs
  · exact ⟨rfl, rfl, fun id => rfl⟩
  · exact ⟨(triggerHandoff_fields cfg _).2.2.2, (triggerHandoff_fields cfg _).2.2.1,
      triggerHandoff_resCount cfg _⟩
  · exact ⟨rfl, rfl, fun id => rfl⟩

/-- The command-lifecycle invariant of a run: pending ids are distinct,
and for every id, the number of resolutions already emitted plus its
pending status equals one exactly when the id has been allocated
(1 ≤ id ≤ commandCounter). -/
def CmdInv (s : PoolState) (outs : List Output) : Prop :=
  s.pendingCommands.Nodup ∧
  ∀ id, resCount outs id + (if id ∈ s.pendingCommands then 1 else 0)
      = if 1 ≤ id ∧ id ≤ s.commandCounter then 1 else 0

theorem cmdInv_init : CmdInv initPool [] := by
  refine ⟨List.nodup_nil, ?_⟩
  intro id
  rw [resCount_nil]
  show (0 + if id ∈ ([] : List Nat) then 1 else 0) = if 1 ≤ id ∧ id ≤ 0 then 1 else 0
  rw [if_neg (List.not_mem_nil id), if_neg (by omega : ¬(1 ≤ id ∧ id ≤ 0))]

theorem cmdInv_neutral_step {s : PoolState} {outs : List Output}
    {r : PoolState × List Output}
    (hpc : r.1.pendingCommands = s.pendingCommands)
    (hcc : r.1.commandCounter = s.commandCounter)
    (hres : ∀ id, resCount r.2 id = 0)
    (h : CmdInv s outs) : CmdInv r.1 (outs ++ r.2) := by
  obtain ⟨h1, h2⟩ := h
  refine ⟨by rw [hpc]; exact h1, ?_⟩
  intro id
  rw [resCount_append, hres id, Nat.add_zero, hpc, hcc]
  exact h2 id

theorem cmdInv_step (cfg : PoolConfig) (s : PoolState) (outs : List Output) (e : Event)
    (h : CmdInv s outs) :
    CmdInv (poolStep cfg s e).1 (outs ++ (poolStep cfg s e).2) := by
  cases e with
  | addNode n =>
    exact cmdInv_neutral_step (addNodeOp_cmdParts cfg s n).1
      (addNodeOp_cmdParts cfg s n).2.1 (addNodeOp_cmdParts cfg s n).2.2 h
  | removeNode n =>
    exact cmdInv_neutral_step (removeNodeOp_cmdParts cfg s n).1
      (removeNodeOp_cmdParts cfg s n).2.1 (removeNodeOp_cmdParts cfg s n).2.2 h
  | elect =>
    exact cmdInv_neutral_step (electNode_cmdParts s).1
      (electNode_cmdParts s).2.1 (electNode_cmdParts s).2.2 h
  | handoffRetry =>
    exact cmdInv_neutral_step (handoffRetryFire_cmdParts cfg s).1
      (handoffRetryFire_cmdParts cfg s).2.1 (handoffRetryFire_cmdParts cfg s).2.2 h
  | tick n =>
    exact cmdInv_neutral_step (tickNode_cmdParts cfg s n).1
      (tickNode_cmdParts cfg s n).2.1 (tickNode_cmdParts cfg s n).2.2 h
  | pong n =>
    exact cmdInv_neutral_step (pongNode_cmdParts s n).1
      (pongNode_cmdParts s n).2.1 (pongNode_cmdParts s n).2.2 h
  | sendCmd d =>
    show CmdInv (sendCommandOp s d).1 (outs ++ (sendCommandOp s d).2.1)
    obtain ⟨h1, h2⟩ := h
    unfold sendCommandOp
    cases hga : getActiveNode s with
    | none =>
      refine ⟨h1, ?_⟩
      intro id
      rw [resCount_append, resCount_nil, Nat.add_zero]
      exact h2 id
    | some p =>
      obtain ⟨nid, en⟩ := p
      have hfresh : s.commandCounter + 1 ∉ s.pendingCommands := by
        intro hmem
        have := h2 (s.commandCounter + 1)
        rw [if_pos hmem, if_neg (by omega :
          ¬(1 ≤ s.commandCounter + 1 ∧ s.commandCounter + 1 ≤ s.commandCounter))] at this
        omega
      refine ⟨?_, ?_⟩
      · show (s.pendingCommands ++ [s.commandCounter + 1]).Nodup
        rw [List.nodup_append]
        refine ⟨h1, List.nodup_singleton _, ?_⟩
        intro a ha hb
        rw [List.mem_singleton] at hb
        subst hb
        exact hfresh ha
      · intro id
        show resCount (outs ++ [Output.armCommandTimer (s.commandCounter + 1) commandTimeoutMs,
            Output.sendTo nid (OutMsg.command (s.commandCounter + 1) d)]) id +
          (if id ∈ s.pendingCommands ++ [s.commandCounter + 1] then 1 else 0)
          = if 1 ≤ id ∧ id ≤ s.commandCounter + 1 then 1 else 0
        rw [resCount_append]
        have hz : resCount [Output.armCommandTimer (s.commandCounter + 1) commandTimeoutMs,
            Output.sendTo nid (OutMsg.command (s.commandCounter + 1) d)] id = 0 := rfl
        rw [hz, Nat.add_zero]
        by_cases hid : id = s.commandCounter + 1
        · subst hid
          have hcur := h2 (s.commandCounter + 1)
          rw [if_neg hfresh, if_neg (by omega :
            ¬(1 ≤ s.commandCounter + 1 ∧ s.commandCounter + 1 ≤ s.commandCounter))] at hcur
          rw [if_pos (by rw [List.mem_append, List.mem_singleton]; exact Or.inr rfl),
            if_pos (by omega)]
          omega
        · have hmm : (id ∈ s.pendingCommands ++ [s.commandCounter + 1]) ↔
              id ∈ s.pendingCommands := by
            rw [List.mem_append, List.mem_singleton]
            constructor
            · intro hx
              rcases hx with hx | hx
              · exact hx
              · exact absurd hx hid
            · exact Or.inl
          have hrange : (1 ≤ id ∧ id ≤ s.commandCounter + 1) ↔
              (1 ≤ id ∧ id ≤ s.commandCounter) := by
            constructor <;> intro hx <;> omega
          rw [if_congr hmm rfl rfl, if_congr hrange rfl rfl]
          exact h2 id
  | cmdTimeout id0 =>
    show CmdInv (commandTimeoutFire s id0).1 (outs ++ (commandTimeoutFire s id0).2)
    obtain ⟨h1, h2⟩ := h
    unfold commandTimeoutFire
    by_cases hp : id0 ∈ s.pendingCommands
    · rw [if_pos hp]
      show CmdInv { s with pendingCommands := s.pendingCommands.erase id0 }
        (outs ++ [Output.resolveCommand id0 false])
      refine ⟨h1.erase id0, ?_⟩
      intro id
      show resCount (outs ++ [Output.resolveCommand id0 false]) id +
          (if id ∈ s.pendingCommands.erase id0 then 1 else 0)
        = if 1 ≤ id ∧ id ≤ s.commandCounter then 1 else 0
      rw [resCount_append, resCount_cons, resCount_nil]
      by_cases hid : id = id0
      · subst hid
        have hone : isResolveOf id (Output.resolveCommand id false) = true := by
          show (id == id) = true
          exact beq_self_eq_true id
        rw [hone, if_pos rfl, if_neg (h1.not_mem_erase)]
        have hcur := h2 id
        rw [if_pos hp] at hcur
        omega
      · have hzero : isResolveOf id (Output.resolveCommand id0 false) = false := by
          show (id0 == id) = false
          exact beq_eq_false_iff_ne.mpr (fun hx => hid hx.symm)
        rw [hzero]
        have hmm : (id ∈ s.pendingCommands.erase id0) ↔ id ∈ s.pendingCommands :=
          List.mem_erase_of_ne hid
        rw [if_congr hmm rfl rfl]
        have hcur := h2 id
        simp only [Bool.false_eq_true, if_false]
        omega
    · rw [if_neg hp]
      refine ⟨h1, ?_⟩
      intro id
      rw [resCount_append, resCount_nil, Nat.add_zero]
      exact h2 id
  | nodeMsg n msg =>
    cases msg with
    | status ble batt =>
      exact cmdInv_neutral_step (handleNodeMessage_cmdNeutral cfg s n _ (by intro i b; simp)).1
        (handleNodeMessage_cmdNeutral cfg s n _ (by intro i b; simp)).2.1
        (handleNodeMessage_cmdNeutral cfg s n _ (by intro i b; simp)).2.2 h
    | scanResult devices =>
      exact cmdInv_neutral_step (handleNodeMessage_cmdNeutral cfg s n _ (by intro i b; simp)).1
        (handleNodeMessage_cmdNeutral cfg s n _ (by intro i b; simp)).2.1
        (handleNodeMessage_cmdNeutral cfg s n _ (by intro i b; simp)).2.2 h
    | battery level =>
      exact cmdInv_neutral_step (handleNodeMessage_cmdNeutral cfg s n _ (by intro i b; simp)).1
        (handleNodeMessage_cmdNeutral cfg s n _ (by intro i b; simp)).2.1
        (handleNodeMessage_cmdNeutral cfg s n _ (by intro i b; simp)).2.2 h
    | rssi value =>
      exact cmdInv_neutral_step (handleNodeMessage_cmdNeutral cfg s n _ (by intro i b; simp)).1
        (handleNodeMessage_cmdNeutral cfg s n _ (by intro i b; simp)).2.1
        (handleNodeMessage_cmdNeutral cfg s n _ (by intro i b; simp)).2.2 h
    | commandResult id0 succ =>
      show CmdInv (handleNodeMessage cfg s n (NodeMsg.commandResult id0 succ)).1
        (outs ++ (handleNodeMessage cfg s n (NodeMsg.commandResult id0 succ)).2)
      obtain ⟨h1, h2⟩ := h
      cases hg : alistGet s.nodes n with
      | none =>
        rw [handleNodeMessage_none hg]
        refine ⟨h1, ?_⟩
        intro id
        rw [resCount_append, resCount_nil, Nat.add_zero]
        exact h2 id
      | some entry =>
        rw [handleNodeMessage_commandResult hg]
        by_cases hp : id0 ∈ s.pendingCommands
        · rw [if_pos hp]
          show CmdInv { s with pendingCommands := s.pendingCommands.erase id0 }
            (outs ++ [Output.cancelCommandTimer id0, Output.resolveCommand id0 succ])
          refine ⟨h1.erase id0, ?_⟩
          intro id
          show resCount (outs ++
              [Output.cancelCommandTimer id0, Output.resolveCommand id0 succ]) id +
              (if id ∈ s.pendingCommands.erase id0 then 1 else 0)
            = if 1 ≤ id ∧ id ≤ s.commandCounter then 1 else 0
          rw [resCount_append, resCount_cons, resCount_cons, resCount_nil]
          have hc0 : isResolveOf id (Output.cancelCommandTimer id0) = false := rfl
          rw [hc0]
          by_cases hid : id = id0
          · subst hid
            have hone : isResolveOf id (Output.resolveCommand id succ) = true := by
              show (id == id) = true
              exact beq_self_eq_true id
            rw [hone, if_pos rfl, if_neg (h1.not_mem_erase)]
            have hcur := h2 id
            rw [if_pos hp] at hcur
            simp only [Bool.false_eq_true, if_false]
            omega
          · have hzero : isResolveOf id (Output.resolveCommand id0 succ) = false := by
              show (id0 == id) = false
              exact beq_eq_false_iff_ne.mpr (fun hx => hid hx.symm)
            rw [hzero]
            have hmm : (id ∈ s.pendingCommands.erase id0) ↔ id ∈ s.pendingCommands :=
              List.mem_erase_of_ne hid
            rw [if_congr hmm rfl rfl]
            have hcur := h2 id
            simp only [Bool.false_eq_true, if_false]
            omega
        · rw [if_neg hp]
          refine ⟨h1, ?_⟩
          intro id
          rw [resCount_append, resCount_nil, Nat.add_zero]
          exact h2 id

theorem cmdInv_runTrace (cfg : PoolConfig) (t : List Event) :
    ∀ (s : PoolState) (outs : List Output), CmdInv s outs →
      CmdInv (runTrace cfg s t).1 (outs ++ (runTrace cfg s t).2) := by
  induction t with
  | nil =>
    intro s outs h
    show CmdInv s (outs ++ [])
    rw [List.append_nil]
    exact h
  | cons e rest ih =>
    intro s outs h
    show CmdInv (runTrace cfg (poolStep cfg s e).1 rest).1
      (outs ++ ((poolStep cfg s e).2 ++ (runTrace cfg (poolStep cfg s e).1 rest).2))
    rw [← List.append_assoc]
    exact ih _ _ (cmdInv_step cfg s outs e h)

theorem cmdInv_of_trace (cfg : PoolConfig) (t : List Event) :
    CmdInv (runTrace cfg initPool t).1 (runTrace cfg initPool t).2 := by
  have h := cmdInv_runTrace cfg t initPool [] cmdInv_init
  rwa [List.nil_append] at h

theorem runTrace_append_fst (cfg : PoolConfig) (t1 t2 : List Event) :
    ∀ s, (runTrace cfg s (t1 ++ t2)).1 = (runTrace cfg (runTrace cfg s t1).1 t2).1 := by
  induction t1 with
  | nil =>
    intro s
    rfl
  | cons e rest ih =>
    intro s
    show (runTrace cfg (poolStep cfg s e).1 (rest ++ t2)).1 =
      (runTrace cfg (runTrace cfg (poolStep cfg s e).1 rest).1 t2).1
    exact ih (poolStep cfg s e).1

theorem runTrace_append_snd (cfg : PoolConfig) (t1 t2 : List Event) :
    ∀ s, (runTrace cfg s (t1 ++ t2)).2 =
      (runTrace cfg s t1).2 ++ (runTrace cfg (runTrace cfg s t1).1 t2).2 := by
  induction t1 with
  | nil =>
    intro s
    show (runTrace cfg s t2).2 = [] ++ (runTrace cfg s t2).2
    rw [List.nil_append]
  | cons e rest ih =>
    intro s
    show (poolStep cfg s e).2 ++ (runTrace cfg (poolStep cfg s e).1 (rest ++ t2)).2 =
      ((poolStep cfg s e).2 ++ (runTrace cfg (poolStep cfg s e).1 rest).2) ++
        (runTrace cfg (runTrace cfg (poolStep cfg s e).1 rest).1 t2).2
    rw [ih, List.append_assoc]

/-- C4 (confirmed). For every remote command id: over any run from the
fresh pool at most one resolution of that id is ever emitted (never
both); once the id has been allocated, appending the firing of its
5-second timeout (the runtime fires every timer that was not cleared; a
cleared timer's firing is a no-op here) yields exactly one resolution in
the whole run and leaves the id's pending entry cleared; a
command_result for a pending id resolves it with that message's success
value, cancelling the timer and deleting the entry; and the timeout
firing for a pending id deletes the entry and resolves with false
(node-pool.js sendCommand lines 356-376 and the MSG_COMMAND_RESULT
dispatch lines 208-216). -/
theorem C4_command_resolution (cfg : PoolConfig) (t : List Event) (id : Nat) :
    resCount (runTrace cfg initPool t).2 id ≤ 1 ∧
    (1 ≤ id → id ≤ (runTrace cfg initPool t).1.commandCounter →
       resCount (runTrace cfg initPool (t ++ [Event.cmdTimeout id])).2 id = 1 ∧
       id ∉ (runTrace cfg initPool (t ++ [Event.cmdTimeout id])).1.pendingCommands) ∧
    (∀ n entry succ, id ∈ (runTrace cfg initPool t).1.pendingCommands →
       alistGet (runTrace cfg initPool t).1.nodes n = some entry →
       (poolStep cfg (runTrace cfg initPool t).1
           (Event.nodeMsg n (NodeMsg.commandResult id succ))).2 =
         [Output.cancelCommandTimer id, Output.resolveCommand id succ] ∧
       id ∉ (poolStep cfg (runTrace cfg initPool t).1
           (Event.nodeMsg n (NodeMsg.commandResult id succ))).1.pendingCommands) ∧
    (id ∈ (runTrace cfg initPool t).1.pendingCommands →
       (poolStep cfg (runTrace cfg initPool t).1 (Event.cmdTimeout id)).2 =
         [Output.resolveCommand id false] ∧
       id ∉ (poolStep cfg (runTrace cfg initPool t).1
           (Event.cmdTimeout id)).1.pendingCommands) := by
  obtain ⟨hnd, hcnt⟩ := cmdInv_of_trace cfg t
  refine ⟨?_, ?_, ?_, ?_⟩
  · have hx := hcnt id
    split_ifs at hx <;> omega
  · intro hid1 hid2
    constructor
    · rw [runTrace_append_snd, resCount_append]
      have hstep2 : (runTrace cfg (runTrace cfg initPool t).1 [Event.cmdTimeout id]).2
          = (commandTimeoutFire (runTrace cfg initPool t).1 id).2 ++ [] := rfl
      rw [hstep2, List.append_nil]
      have hx := hcnt id
      rw [if_pos (show 1 ≤ id ∧ id ≤ (runTrace cfg initPool t).1.commandCounter from
        ⟨hid1, hid2⟩)] at hx
      by_cases hp : id ∈ (runTrace cfg initPool t).1.pendingCommands
      · rw [if_pos hp] at hx
        have hout : (commandTimeoutFire (runTrace cfg initPool t).1 id).2
            = [Output.resolveCommand id false] := by
          unfold commandTimeoutFire
          rw [if_pos hp]
        rw [hout, resCount_cons, resCount_nil]
        have hone : isResolveOf id (Output.resolveCommand id false) = true := by
          show (id == id) = true
          exact beq_self_eq_true id
        rw [hone, if_pos rfl]
        omega
      · rw [if_neg hp] at hx
        have hout : (commandTimeoutFire (runTrace cfg initPool t).1 id).2 = [] := by
          unfold commandTimeoutFire
          rw [if_neg hp]
        rw [hout, resCount_nil]
        omega
    · have hfinal : (runTrace cfg initPool (t ++ [Event.cmdTimeout id])).1
          = (commandTimeoutFire (runTrace cfg initPool t).1 id).1 := by
        rw [runTrace_append_fst]
        rfl
      rw [hfinal]
      by_cases hp : id ∈ (runTrace cfg initPool t).1.pendingCommands
      · have hout : (commandTimeoutFire (runTrace cfg initPool t).1 id).1.pendingCommands
            = (runTrace cfg initPool t).1.pendingCommands.erase id := by
          unfold commandTimeoutFire
          rw [if_pos hp]
        rw [hout]
        exact hnd.not_mem_erase
      · have hout : (commandTimeoutFire (runTrace cfg initPool t).1 id).1.pendingCommands
            = (runTrace cfg initPool t).1.pendingCommands := by
          unfold commandTimeoutFire
          rw [if_neg hp]
        rw [hout]
        exact hp
  · intro n entry succ hp hge
    have hh := @handleNodeMessage_commandResult cfg (runTrace cfg initPool t).1 n entry id succ hge
    constructor
    · show (handleNodeMessage cfg (runTrace cfg initPool t).1 n
          (NodeMsg.commandResult id succ)).2 =
        [Output.cancelCommandTimer id, Output.resolveCommand id succ]
      rw [hh, if_pos hp]
    · show id ∉ (handleNodeMessage cfg (runTrace cfg initPool t).1 n
          (NodeMsg.commandResult id succ)).1.pendingCommands
      rw [hh, if_pos hp]
      show id ∉ (runTrace cfg initPool t).1.pendingCommands.erase id
      exact hnd.not_mem_erase
  · intro hp
    constructor
    · show (commandTimeoutFire (runTrace cfg initPool t).1 id).2 =
        [Output.resolveCommand id false]
      unfold commandTimeoutFire
      rw [if_pos hp]
    · show id ∉ (commandTimeoutFire (runTrace cfg initPool t).1 id).1.pendingCommands
      unfold commandTimeoutFire
      rw [if_pos hp]
      show id ∉ (runTrace cfg initPool t).1.pendingCommands.erase id
      exact hnd.not_mem_erase

/-- A run in which node A registers, gains BLE (becomes active) and one
command is submitted: command id 1 is allocated and pending. -/
def c4Trace : List Event :=
  [Event.addNode "A", Event.nodeMsg "A" (NodeMsg.status true none),
   Event.sendCmd "aa0700000abb"]

/-- Witness for C4 on the concrete run `c4Trace` and command id 1. -/
theorem C4_command_resolution_witness :
    resCount (runTrace defaultPoolConfig initPool c4Trace).2 1 ≤ 1 ∧
    resCount (runTrace defaultPoolConfig initPool
        (c4Trace ++ [Event.cmdTimeout 1])).2 1 = 1 ∧
    1 ∉ (runTrace defaultPoolConfig initPool
        (c4Trace ++ [Event.cmdTimeout 1])).1.pendingCommands ∧
    (poolStep defaultPoolConfig (runTrace defaultPoolConfig initPool c4Trace).1
        (Event.nodeMsg "A" (NodeMsg.commandResult 1 true))).2 =
      [Output.cancelCommandTimer 1, Output.resolveCommand 1 true] := by
  have h := C4_command_resolution defaultPoolConfig c4Trace 1
  refine ⟨h.1, (h.2.1 (by decide) (by decide)).1, (h.2.1 (by decide) (by decide)).2, ?_⟩
  exact (h.2.2.1 "A"
    { bleConnected := true, lastBattery := none, isActive := true, pongReceived := true }
    true (by decide) (by decide)).1
